import Mathlib

/-!
Verification of the leaky-buckets personal-finance backend.

The definitions below are a shallow embedding of the Python sources:
`backend/lib/categorizer.py`, `backend/lib/normalizer.py`,
`backend/lib/statement_parser.py`, `backend/handlers/month.py` and
`backend/handlers/transactions.py`.  Machine floats are modelled as exact
rationals, Python dicts as insertion-ordered association lists, DynamoDB
tables as lists of records, and the generative-model call as an oracle
carried in an environment record.
-/

/-! ## Python string primitives -/

/-- The ASCII whitespace characters recognised by Python `str.strip` and
by the regex class `\s` (for the ASCII inputs handled here). -/
def pyWs (c : Char) : Bool :=
  c = ' ' || c = '\t' || c = '\n' || c = '\r' || c = '\x0b' || c = '\x0c'

/-- Python `str.strip()`: drop whitespace from both ends. -/
def pyStrip (s : String) : String :=
  ⟨((s.data.dropWhile pyWs).reverse.dropWhile pyWs).reverse⟩

/-- Lower-case one character (ASCII, which covers the data handled here). -/
def pyLowerChar (c : Char) : Char :=
  if 'A' ≤ c && c ≤ 'Z' then Char.ofNat (c.toNat + 32) else c

/-- Python `str.lower()` (ASCII). -/
def pyLower (s : String) : String := ⟨s.data.map pyLowerChar⟩

/-- The single-quote character, used in some diagnostic strings. -/
def squote : String := String.singleton (Char.ofNat 39)

/-! ## Categorizer data model (`backend/lib/categorizer.py`) -/

/-- The canonical bucket list (`BUCKETS` in `categorizer.py`). -/
def BUCKETS : List String :=
  [ "Home & Utilities", "Groceries", "Dining & Coffee", "Subscriptions",
    "Health", "Transport", "Fun & Travel", "One-Off & Big Hits" ]

/-- One item of the merchants table, as written by `remember_merchant`. -/
structure MerchantRec where
  merchantName : String
  bucket : String
  originalDescription : String
deriving DecidableEq, Repr

/-- The DynamoDB merchants table. -/
abbrev MerchantTable := List MerchantRec

/-- DynamoDB `get_item` on the merchants table (point lookup by key). -/
def mget (t : MerchantTable) (key : String) : Option MerchantRec :=
  List.find? (fun r => r.merchantName = key) t

/-- DynamoDB `put_item` on the merchants table: unconditional overwrite. -/
def mput (t : MerchantTable) (r : MerchantRec) : MerchantTable :=
  r :: List.filter (fun x => x.merchantName ≠ r.merchantName) t

/-- A categorization result tuple `(bucket, confidence, source, reasoning)`. -/
structure CatResult where
  bucket : Option String
  confidence : ℚ
  source : String
  reasoning : String
deriving DecidableEq, Repr

/-- One object of a JSON array returned by the model for a chunk:
its `bucket` field (`none` when absent or not a string of the closed set's
type), its `confidence`, `reasoning`, and `dump`, the item's JSON
serialization as used in the unknown-bucket diagnostic. -/
structure RawItem where
  bucket : Option String
  confidence : ℚ
  reasoning : String
  dump : String
deriving DecidableEq, Repr

/-- Outcome of one chunked model call, after markdown-fence stripping and
`json.loads`: a parsed JSON array, a parsed non-array value, or an
exception (network failure or invalid JSON). -/
inductive ChunkResp where
  | list (items : List RawItem)
  | nonList
  | exn (msg : String)

/-- Outcome of one single-item model call: a parsed JSON object together
with the raw response text, or an exception. -/
inductive SingleResp where
  | item (it : RawItem) (raw : String)
  | exn (msg : String)

/-- The ambient configuration of the categorizer: the `OPENAI_API_KEY`
environment value and the generative-model call, abstracted as oracles
for the chunk prompt and the single-item prompt. -/
structure CatEnv where
  apiKey : String
  chunkOracle : List String → ChunkResp
  singleOracle : String → SingleResp

/-- `not api_key or api_key == "PLACEHOLDER_UPDATE_ME"` from
`_ai_categorize_batch`, negated: is the model credential configured? -/
def apiKeyConfigured (k : String) : Bool :=
  ¬(k = "" || k = "PLACEHOLDER_UPDATE_ME")

/-- The merchant key normalisation used throughout `categorizer.py`:
`description.strip().lower()`. -/
def merchantKey (description : String) : String := pyLower (pyStrip description)

/-- Memory lookup plus the truthiness test
`if stored and stored.get("bucket"):` — returns the stored bucket when the
key is present and its bucket is non-empty. -/
def memLookup (t : MerchantTable) (description : String) : Option String :=
  match mget t (merchantKey description) with
  | some r => if r.bucket ≠ "" then some r.bucket else none
  | none => none

/-- The memory-hit result built by `categorize_transaction`. -/
def memResult (description bucket : String) : CatResult :=
  ⟨some bucket, 1, "merchant_memory",
    "Merchant " ++ squote ++ description ++ squote ++
      " previously categorized by user."⟩

/-- `remember_merchant(description, bucket)`: store the normalised key
with the chosen bucket; `put_item` overwrites any previous entry. -/
def remember_merchant (t : MerchantTable) (description bucket : String) :
    MerchantTable :=
  mput t ⟨merchantKey description, bucket, description⟩

/-- Result coercion applied to each item of a valid chunk response:
a bucket outside `BUCKETS` is coerced to `none`/`0.0` with a diagnostic
reasoning, and `source` is set to `"ai"`. -/
def coerceItem (it : RawItem) : CatResult :=
  if (match it.bucket with | some b => decide (b ∈ BUCKETS) | none => false) then
    ⟨it.bucket, it.confidence, "ai", it.reasoning⟩
  else
    ⟨none, 0, "ai", "AI suggested unknown bucket. Original: " ++ it.dump⟩

/-- `_ai_categorize_single`: one model call; exceptions become an
`ai_error` result, an out-of-set bucket is coerced.  The second component
counts model calls made (always one). -/
def ai_categorize_single (env : CatEnv) (description : String) :
    CatResult × Nat :=
  match env.singleOracle description with
  | .item it raw =>
    if (match it.bucket with | some b => decide (b ∈ BUCKETS) | none => false) then
      (⟨it.bucket, it.confidence, "ai", it.reasoning⟩, 1)
    else
      (⟨none, 0, "ai", "AI suggested unknown bucket. Original: " ++ raw⟩, 1)
  | .exn e => (⟨none, 0, "ai_error", "AI categorization failed: " ++ e⟩, 1)

/-- A Python dict mapping descriptions to results (insertion ordered). -/
abbrev CatDict := List (String × CatResult)

/-- Python dict assignment `d[k] = v`: replace in place or append. -/
def dinsert : CatDict → String → CatResult → CatDict
  | [], k, v => [(k, v)]
  | (k0, v0) :: rest, k, v =>
    if k0 = k then (k0, v) :: rest else (k0, v0) :: dinsert rest k v

/-- Python dict lookup `d.get(k)`. -/
def dlookup : CatDict → String → Option CatResult
  | [], _ => none
  | (k0, v0) :: rest, k => if k0 = k then some v0 else dlookup rest k

/-- Python `d.update(e)`. -/
def dupdate (d e : CatDict) : CatDict :=
  e.foldl (fun acc p => dinsert acc p.1 p.2) d

/-- `_ai_categorize_singles`: one call per description, results keyed by
description. -/
def ai_categorize_singles (env : CatEnv) (descriptions : List String) :
    CatDict × Nat :=
  descriptions.foldl
    (fun acc d =>
      let r := ai_categorize_single env d
      (dinsert acc.1 d r.1, acc.2 + r.2))
    ([], 0)

/-- `_ai_categorize_chunk`: one model call for the whole chunk; a
response that is not a JSON array of exactly the chunk's length, or an
exception, falls back to per-item calls for this chunk only. -/
def ai_categorize_chunk (env : CatEnv) (descriptions : List String) :
    CatDict × Nat :=
  match env.chunkOracle descriptions with
  | .list items =>
    if items.length ≠ descriptions.length then
      let s := ai_categorize_singles env descriptions
      (s.1, 1 + s.2)
    else
      ((descriptions.zip items).foldl
        (fun acc p => dinsert acc p.1 (coerceItem p.2)) [], 1)
  | .nonList =>
    let s := ai_categorize_singles env descriptions
    (s.1, 1 + s.2)
  | .exn _ =>
    let s := ai_categorize_singles env descriptions
    (s.1, 1 + s.2)

/-- `_CHUNK_SIZE = 20`. -/
def CHUNK_SIZE : Nat := 20

/-- The chunking loop `for start in range(0, len(descriptions), 20)`,
written with explicit fuel so that it evaluates by reduction. -/
def chunksOfGo : Nat → List String → List (List String)
  | 0, _ => []
  | _, [] => []
  | fuel + 1, l => l.take CHUNK_SIZE :: chunksOfGo fuel (l.drop CHUNK_SIZE)

/-- Split a description list into chunks of at most `CHUNK_SIZE`. -/
def chunksOf (l : List String) : List (List String) := chunksOfGo l.length l

/-- The `ai_unavailable` result used on an unconfigured credential. -/
def unavailableResult : CatResult :=
  ⟨none, 0, "ai_unavailable", "OpenAI API key not configured."⟩

/-- `_ai_categorize_batch`: unconfigured credential resolves every
description immediately with no model call; otherwise the descriptions
are processed in chunks and the per-chunk dicts merged. -/
def ai_categorize_batch (env : CatEnv) (descriptions : List String) :
    CatDict × Nat :=
  if apiKeyConfigured env.apiKey = false then
    (descriptions.foldl (fun acc d => dinsert acc d unavailableResult) [], 0)
  else
    (chunksOf descriptions).foldl
      (fun acc c =>
        let r := ai_categorize_chunk env c
        (dupdate acc.1 r.1, acc.2 + r.2))
      ([], 0)

/-- `categorize_transaction`: memory first (no model call on a hit), then
the single-item model path. -/
def categorize_transaction (env : CatEnv) (t : MerchantTable)
    (description : String) : CatResult × Nat :=
  match memLookup t description with
  | some b => (memResult description b, 0)
  | none => ai_categorize_single env description

/-! ## Batch categorization (`categorize_batch` in `categorizer.py`) -/

/-- A transaction record as handled by `categorize_batch`: the canonical
fields plus the categorization augmentation it writes. -/
structure Txn where
  description : String
  bucket : Option String := none
  confidence : ℚ := 0
  categorization_source : String := ""
  categorization_reasoning : String := ""
deriving DecidableEq, Repr

instance : Inhabited Txn := ⟨{ description := "" }⟩

/-- Write a memory hit into a transaction (step 1 of `categorize_batch`). -/
def memApplyTxn (t : Txn) (bucket : String) : Txn :=
  { t with
    bucket := some bucket
    confidence := 1
    categorization_source := "merchant_memory"
    categorization_reasoning :=
      "Merchant " ++ squote ++ t.description ++ squote ++
        " previously categorized by user." }

/-- Write an AI result into a transaction (step 4 of `categorize_batch`). -/
def aiApplyTxn (t : Txn) (r : CatResult) : Txn :=
  { t with
    bucket := r.bucket
    confidence := r.confidence
    categorization_source := r.source
    categorization_reasoning := r.reasoning }

/-- Step 1 of `categorize_batch`: resolve memory hits in place and collect
the `(index, description)` pairs that still need the model, indices
counted from `base`. -/
def memoryPass (t : MerchantTable) : List Txn → Nat →
    List Txn × List (Nat × String)
  | [], _ => ([], [])
  | txn :: rest, i =>
    let r := memoryPass t rest (i + 1)
    match memLookup t txn.description with
    | some b => (memApplyTxn txn b :: r.1, r.2)
    | none => (txn :: r.1, (i, txn.description) :: r.2)

/-- Python `dict.fromkeys`: deduplicate keeping first occurrences. -/
def dedupKeepFirst (seen : List String) : List String → List String
  | [] => []
  | d :: rest =>
    if d ∈ seen then dedupKeepFirst seen rest
    else d :: dedupKeepFirst (d :: seen) rest

/-- The default applied when the AI dict is missing a description
(`desc_to_result.get(desc, {...})`). -/
def noResultDefault : CatResult :=
  ⟨none, 0, "ai_error", "No AI result returned for this transaction."⟩

/-- `transactions[idx][...] = ...`: update the list element at `idx`. -/
def setAt (l : List Txn) (i : Nat) (f : Txn → Txn) : List Txn :=
  match l.get? i with
  | some t => l.set i (f t)
  | none => l

/-- Step 4 of `categorize_batch`: fan the AI results back out to every
collected position, duplicates included. -/
def applyResults (ts : List Txn) (needs : List (Nat × String))
    (d : CatDict) : List Txn :=
  needs.foldl
    (fun acc p => setAt acc p.1 (fun t => aiApplyTxn t ((dlookup d p.2).getD noResultDefault)))
    ts

/-- `categorize_batch`: memory first, then deduplicated chunked model
calls, then fan-out.  The second component counts model calls. -/
def categorize_batch (env : CatEnv) (t : MerchantTable) (txns : List Txn) :
    List Txn × Nat :=
  let mp := memoryPass t txns 0
  if mp.2.isEmpty then (mp.1, 0)
  else
    let uniq := dedupKeepFirst [] (mp.2.map (fun p => p.2))
    let br := ai_categorize_batch env uniq
    (applyResults mp.1 mp.2 br.1, br.2)

/-! ## Dictionary and fold lemmas -/

lemma dlookup_dinsert_self (d : CatDict) (k : String) (v : CatResult) :
    dlookup (dinsert d k v) k = some v := by
  induction d with
  | nil => simp [dinsert, dlookup]
  | cons p rest ih =>
    obtain ⟨k0, v0⟩ := p
    by_cases h : k0 = k
    · simp [dinsert, dlookup, h]
    · simp [dinsert, dlookup, h, ih]

lemma dlookup_dinsert_ne (d : CatDict) (k k2 : String) (v : CatResult)
    (h : k ≠ k2) : dlookup (dinsert d k v) k2 = dlookup d k2 := by
  induction d with
  | nil => simp [dinsert, dlookup, h]
  | cons p rest ih =>
    obtain ⟨k0, v0⟩ := p
    by_cases h0 : k0 = k
    · subst h0; simp [dinsert, dlookup, h]
    · simp [dinsert, dlookup, h0, ih]

lemma dlookup_dinsert_cases (d : CatDict) (k k2 : String) (v : CatResult)
    (r : CatResult) (h : dlookup (dinsert d k v) k2 = some r) :
    r = v ∨ dlookup d k2 = some r := by
  by_cases hk : k = k2
  · subst hk
    rw [dlookup_dinsert_self] at h
    exact Or.inl (Option.some.inj h).symm
  · rw [dlookup_dinsert_ne d k k2 v hk] at h
    exact Or.inr h

lemma dlookup_foldl_gen_const {β : Type} (key : β → String) (v : CatResult) :
    ∀ (l : List β) (acc : CatDict) (k : String),
      (k ∈ l.map key ∨ dlookup acc k = some v) →
      dlookup (l.foldl (fun a x => dinsert a (key x) v) acc) k = some v := by
  intro l
  induction l with
  | nil =>
    intro acc k h
    simpa using h.elim (fun h2 => by simp at h2) id
  | cons x rest ih =>
    intro acc k h
    simp only [List.foldl_cons]
    apply ih
    by_cases hk : k ∈ rest.map key
    · exact Or.inl hk
    · right
      rcases h with h | h
      · simp only [List.map_cons, List.mem_cons] at h
        rcases h with h | h
        · subst h; exact dlookup_dinsert_self acc (key x) v
        · exact absurd h hk
      · by_cases hke : key x = k
        · subst hke; exact dlookup_dinsert_self acc (key x) v
        · rw [dlookup_dinsert_ne acc (key x) k v hke]; exact h

lemma dlookup_foldl_gen_isSome {β : Type} (key : β → String)
    (val : β → CatResult) :
    ∀ (l : List β) (acc : CatDict) (k : String),
      (k ∈ l.map key ∨ (dlookup acc k).isSome) →
      (dlookup (l.foldl (fun a x => dinsert a (key x) (val x)) acc) k).isSome := by
  intro l
  induction l with
  | nil =>
    intro acc k h
    simpa using h.elim (fun h2 => by simp at h2) id
  | cons x rest ih =>
    intro acc k h
    simp only [List.foldl_cons]
    apply ih
    by_cases hk : k ∈ rest.map key
    · exact Or.inl hk
    · right
      by_cases hke : key x = k
      · subst hke; rw [dlookup_dinsert_self]; rfl
      · rw [dlookup_dinsert_ne acc (key x) k (val x) hke]
        rcases h with h | h
        · simp only [List.map_cons, List.mem_cons] at h
          rcases h with h | h
          · exact absurd h.symm hke
          · exact absurd h hk
        · exact h

lemma dlookup_foldl_gen_inv {β : Type} (P : CatResult → Prop)
    (key : β → String) (val : β → CatResult) :
    ∀ (l : List β), (∀ x ∈ l, P (val x)) →
      ∀ (acc : CatDict) (k : String) (r : CatResult),
      (∀ r2, dlookup acc k = some r2 → P r2) →
      dlookup (l.foldl (fun a x => dinsert a (key x) (val x)) acc) k = some r →
      P r := by
  intro l
  induction l with
  | nil =>
    intro _ acc k r hacc h
    exact hacc r h
  | cons x rest ih =>
    intro hl acc k r hacc h
    simp only [List.foldl_cons] at h
    refine ih (fun y hy => hl y (List.mem_cons_of_mem x hy)) _ k r ?_ h
    intro r2 h2
    rcases dlookup_dinsert_cases acc (key x) k (val x) r2 h2 with h3 | h3
    · exact h3 ▸ hl x (List.mem_cons_self x rest)
    · exact hacc r2 h3

/-! ## Memory-pass and fan-out lemmas -/

lemma memoryPass_get_hit (t : MerchantTable) :
    ∀ (txns : List Txn) (base i : Nat) (tx : Txn) (b : String),
      txns[i]? = some tx → memLookup t tx.description = some b →
      (memoryPass t txns base).1[i]? = some (memApplyTxn tx b) := by
  intro txns
  induction txns with
  | nil => intro base i tx b h; simp at h
  | cons hd tl ih =>
    intro base i tx b h hm
    cases i with
    | zero =>
      simp only [List.getElem?_cons_zero, Option.some.injEq] at h
      subst h
      cases hm2 : memLookup t hd.description with
      | some b2 =>
        rw [hm2] at hm
        have hb2 : b2 = b := by simpa using hm
        subst hb2
        simp [memoryPass, hm2]
      | none => rw [hm2] at hm; exact absurd hm (by simp)
    | succ j =>
      simp only [List.getElem?_cons_succ] at h
      cases hm2 : memLookup t hd.description with
      | some b2 => simp only [memoryPass, hm2, List.getElem?_cons_succ]
                   exact ih (base + 1) j tx b h hm
      | none => simp only [memoryPass, hm2, List.getElem?_cons_succ]
                exact ih (base + 1) j tx b h hm

lemma memoryPass_needs_char (t : MerchantTable) :
    ∀ (txns : List Txn) (base j : Nat) (s : String),
      (j, s) ∈ (memoryPass t txns base).2 →
      ∃ (k : Nat) (tx : Txn), j = base + k ∧ txns[k]? = some tx ∧
        memLookup t tx.description = none := by
  intro txns
  induction txns with
  | nil => intro base j s h; simp [memoryPass] at h
  | cons hd tl ih =>
    intro base j s h
    cases hm2 : memLookup t hd.description with
    | some b2 =>
      simp only [memoryPass, hm2] at h
      obtain ⟨k, tx, hk, hg, hl⟩ := ih (base + 1) j s h
      exact ⟨k + 1, tx, by omega, by simpa using hg, hl⟩
    | none =>
      simp only [memoryPass, hm2, List.mem_cons] at h
      rcases h with h | h
      · obtain ⟨h1, _⟩ := Prod.mk.injEq .. ▸ Prod.ext_iff.mp h
        exact ⟨0, hd, by omega, by simp, hm2⟩
      · obtain ⟨k, tx, hk, hg, hl⟩ := ih (base + 1) j s h
        exact ⟨k + 1, tx, by omega, by simpa using hg, hl⟩

lemma setAt_get_ne (l : List Txn) (j : Nat) (f : Txn → Txn) (i : Nat)
    (h : i ≠ j) : (setAt l j f)[i]? = l[i]? := by
  unfold setAt
  cases hg : l.get? j with
  | none => rfl
  | some tx => exact List.getElem?_set_ne (Ne.symm h)

lemma applyResults_get_notmem :
    ∀ (needs : List (Nat × String)) (ts : List Txn) (dct : CatDict) (i : Nat),
      i ∉ needs.map Prod.fst → (applyResults ts needs dct)[i]? = ts[i]? := by
  intro needs
  induction needs with
  | nil => intro ts dct i _; rfl
  | cons p rest ih =>
    intro ts dct i h
    simp only [List.map_cons, List.mem_cons] at h
    push_neg at h
    have step : applyResults ts (p :: rest) dct =
        applyResults (setAt ts p.1
          (fun t => aiApplyTxn t ((dlookup dct p.2).getD noResultDefault)))
          rest dct := rfl
    rw [step, ih _ dct i h.2, setAt_get_ne _ _ _ _ h.1]

/-- Remembering a merchant makes memory lookups hit for every equivalent
description. -/
lemma memLookup_remember (t : MerchantTable) (d d2 b : String)
    (hb : b ≠ "") (hd : merchantKey d2 = merchantKey d) :
    memLookup (remember_merchant t d b) d2 = some b := by
  unfold memLookup remember_merchant mput mget
  rw [hd]
  simp [List.find?_cons, hb]

lemma mem_BUCKETS_ne_empty (b : String) (hb : b ∈ BUCKETS) : b ≠ "" := by
  rintro rfl
  revert hb
  decide

/-! ## Claim C1 -/

/-- C1: after `remember_merchant(d, b)` with a bucket `b` of the closed
bucket set, every subsequent categorization — single-item or batch — of
any description with the same normalised (trimmed, lower-cased) key
returns `bucket = b`, `confidence = 1.0`, `source = merchant_memory`,
with no model call, whatever the generative-model oracle would answer. -/
theorem C1_merchant_memory_overrides (env : CatEnv) (t : MerchantTable)
    (d d2 b : String) (hb : b ∈ BUCKETS)
    (hd : merchantKey d2 = merchantKey d) :
    (categorize_transaction env (remember_merchant t d b) d2 =
      (memResult d2 b, 0)) ∧
    (memResult d2 b).bucket = some b ∧
    (memResult d2 b).confidence = 1 ∧
    (memResult d2 b).source = "merchant_memory" ∧
    (∀ (txns : List Txn) (i : Nat) (tx : Txn),
      txns[i]? = some tx → merchantKey tx.description = merchantKey d →
      ∃ tx2,
        (categorize_batch env (remember_merchant t d b) txns).1[i]? =
          some tx2 ∧
        tx2.bucket = some b ∧ tx2.confidence = 1 ∧
        tx2.categorization_source = "merchant_memory") := by
  have hbne : b ≠ "" := mem_BUCKETS_ne_empty b hb
  have hmem : memLookup (remember_merchant t d b) d2 = some b :=
    memLookup_remember t d d2 b hbne hd
  refine ⟨?_, rfl, rfl, rfl, ?_⟩
  · unfold categorize_transaction
    rw [hmem]
  · intro txns i tx hget hkey
    have hmemtx : memLookup (remember_merchant t d b) tx.description = some b :=
      memLookup_remember t d tx.description b hbne hkey
    set t2 := remember_merchant t d b with ht2
    have hhit := memoryPass_get_hit t2 txns 0 i tx b hget hmemtx
    refine ⟨memApplyTxn tx b, ?_, rfl, rfl, rfl⟩
    unfold categorize_batch
    by_cases hne : (memoryPass t2 txns 0).2.isEmpty
    · simp only [hne, if_pos]
      exact hhit
    · simp only [hne, if_neg, Bool.false_eq_true, not_false_iff]
      have hnotmem : i ∉ (memoryPass t2 txns 0).2.map Prod.fst := by
        intro hin
        obtain ⟨p, hp, hfst⟩ := List.mem_map.mp hin
        obtain ⟨pj, ps⟩ := p
        obtain ⟨k, tx3, hk, hg3, hl3⟩ :=
          memoryPass_needs_char t2 txns 0 pj ps hp
        have hki : k = i := by omega
        subst hki
        rw [hget] at hg3
        have : tx3 = tx := by simpa using hg3.symm
        subst this
        rw [hmemtx] at hl3
        exact absurd hl3 (by simp)
      rw [applyResults_get_notmem _ _ _ _ hnotmem]
      exact hhit

/-- A concrete environment whose model oracle always fails. -/
def envFailing : CatEnv :=
  ⟨"", fun _ => ChunkResp.exn "connection error",
    fun _ => SingleResp.exn "Error code 401 - invalid api key"⟩

/-- Witness for C1 at a concrete merchant, bucket and environment. -/
theorem C1_merchant_memory_overrides_witness :
    categorize_transaction envFailing
      (remember_merchant [] "Trader Joes #12" "Groceries")
      " TRADER JOES #12 " =
      (memResult " TRADER JOES #12 " "Groceries", 0) :=
  (C1_merchant_memory_overrides envFailing [] "Trader Joes #12"
    " TRADER JOES #12 " "Groceries" (by decide) (by decide)).1

/-! ## Further categorizer lemmas -/

lemma ai_categorize_single_calls (env : CatEnv) (d : String) :
    (ai_categorize_single env d).2 = 1 := by
  unfold ai_categorize_single
  cases env.singleOracle d with
  | item it raw =>
    by_cases h : (match it.bucket with
      | some b => decide (b ∈ BUCKETS) | none => false) = true
    · simp [h]
    · simp [h]
  | exn e => rfl

lemma ai_categorize_single_source (env : CatEnv) (d : String) :
    (ai_categorize_single env d).1.source = "ai" ∨
      (ai_categorize_single env d).1.source = "ai_error" := by
  unfold ai_categorize_single
  cases env.singleOracle d with
  | item it raw =>
    by_cases h : (match it.bucket with
      | some b => decide (b ∈ BUCKETS) | none => false) = true
    · simp [h]
    · simp [h]
  | exn e => exact Or.inr rfl

lemma memoryPass_get_miss (t : MerchantTable) :
    ∀ (txns : List Txn) (base i : Nat) (tx : Txn),
      txns[i]? = some tx → memLookup t tx.description = none →
      (memoryPass t txns base).1[i]? = some tx := by
  intro txns
  induction txns with
  | nil => intro base i tx h; simp at h
  | cons hd tl ih =>
    intro base i tx h hm
    cases i with
    | zero =>
      simp only [List.getElem?_cons_zero, Option.some.injEq] at h
      subst h
      simp [memoryPass, hm]
    | succ j =>
      simp only [List.getElem?_cons_succ] at h
      cases hm2 : memLookup t hd.description with
      | some b2 => simp only [memoryPass, hm2, List.getElem?_cons_succ]
                   exact ih (base + 1) j tx h hm
      | none => simp only [memoryPass, hm2, List.getElem?_cons_succ]
                exact ih (base + 1) j tx h hm

lemma memoryPass_needs_mem_miss (t : MerchantTable) :
    ∀ (txns : List Txn) (base i : Nat) (tx : Txn),
      txns[i]? = some tx → memLookup t tx.description = none →
      (base + i, tx.description) ∈ (memoryPass t txns base).2 := by
  intro txns
  induction txns with
  | nil => intro base i tx h; simp at h
  | cons hd tl ih =>
    intro base i tx h hm
    cases i with
    | zero =>
      simp only [List.getElem?_cons_zero, Option.some.injEq] at h
      subst h
      simp [memoryPass, hm]
    | succ j =>
      simp only [List.getElem?_cons_succ] at h
      have := ih (base + 1) j tx h hm
      have harith : base + 1 + j = base + (j + 1) := by omega
      rw [harith] at this
      cases hm2 : memLookup t hd.description with
      | some b2 => simpa [memoryPass, hm2] using this
      | none =>
        simp only [memoryPass, hm2]
        exact List.mem_cons_of_mem _ this

lemma memoryPass_needs_fst_ge (t : MerchantTable) :
    ∀ (txns : List Txn) (base : Nat) (p : Nat × String),
      p ∈ (memoryPass t txns base).2 → base ≤ p.1 := by
  intro txns base p hp
  obtain ⟨k, tx, hk, _, _⟩ := memoryPass_needs_char t txns base p.1 p.2 hp
  omega

lemma memoryPass_needs_fst_nodup (t : MerchantTable) :
    ∀ (txns : List Txn) (base : Nat),
      ((memoryPass t txns base).2.map Prod.fst).Nodup := by
  intro txns
  induction txns with
  | nil => intro base; simp [memoryPass]
  | cons hd tl ih =>
    intro base
    cases hm2 : memLookup t hd.description with
    | some b2 => simpa [memoryPass, hm2] using ih (base + 1)
    | none =>
      simp only [memoryPass, hm2, List.map_cons, List.nodup_cons]
      refine ⟨?_, ih (base + 1)⟩
      intro hmem
      obtain ⟨p, hp, hfst⟩ := List.mem_map.mp hmem
      have := memoryPass_needs_fst_ge t tl (base + 1) p hp
      omega

lemma setAt_get_self (l : List Txn) (i : Nat) (f : Txn → Txn) (t0 : Txn)
    (h : l[i]? = some t0) : (setAt l i f)[i]? = some (f t0) := by
  unfold setAt
  rw [List.get?_eq_getElem?, h]
  have hlt : i < l.length := (List.getElem?_eq_some.mp h).1
  rw [List.getElem?_set]
  simp [hlt]

lemma applyResults_get_once :
    ∀ (needs : List (Nat × String)) (ts : List Txn) (dct : CatDict)
      (i : Nat) (s : String) (t0 : Txn),
      (i, s) ∈ needs → (needs.map Prod.fst).Nodup → ts[i]? = some t0 →
      (applyResults ts needs dct)[i]? =
        some (aiApplyTxn t0 ((dlookup dct s).getD noResultDefault)) := by
  intro needs
  induction needs with
  | nil => intro ts dct i s t0 h; simp at h
  | cons p rest ih =>
    intro ts dct i s t0 hmem hnodup hget
    have step : applyResults ts (p :: rest) dct =
        applyResults (setAt ts p.1
          (fun t => aiApplyTxn t ((dlookup dct p.2).getD noResultDefault)))
          rest dct := rfl
    simp only [List.map_cons, List.nodup_cons] at hnodup
    rcases List.mem_cons.mp hmem with h | h
    · subst h
      rw [step, applyResults_get_notmem rest _ dct i hnodup.1]
      exact setAt_get_self ts i _ t0 hget
    · have hne : p.1 ≠ i := by
        intro he
        exact hnodup.1 (he ▸ List.mem_map.mpr ⟨(i, s), h, rfl⟩)
      rw [step]
      refine ih _ dct i s t0 h hnodup.2 ?_
      rw [setAt_get_ne ts p.1 _ i (Ne.symm hne)]
      exact hget

lemma mem_dedupKeepFirst :
    ∀ (l seen : List String) (s : String),
      s ∈ l → s ∉ seen → s ∈ dedupKeepFirst seen l := by
  intro l
  induction l with
  | nil => intro seen s h; simp at h
  | cons d rest ih =>
    intro seen s hmem hseen
    rcases List.mem_cons.mp hmem with h | h
    · subst h
      by_cases hd : s ∈ seen
      · exact absurd hd hseen
      · simp [dedupKeepFirst, hd]
    · by_cases hd : d ∈ seen
      · simp only [dedupKeepFirst, hd, if_pos]
        exact ih seen s h hseen
      · simp only [dedupKeepFirst, hd, if_neg, not_false_iff]
        by_cases hsd : s = d
        · subst hsd; exact List.mem_cons_self _ _
        · refine List.mem_cons_of_mem _ (ih (d :: seen) s h ?_)
          simp [hsd, hseen]

lemma mem_dinsert (d : CatDict) (k : String) (v : CatResult)
    (p : String × CatResult) (h : p ∈ dinsert d k v) :
    p = (k, v) ∨ p ∈ d := by
  induction d with
  | nil => simpa [dinsert] using h
  | cons q rest ih =>
    obtain ⟨k0, v0⟩ := q
    by_cases h0 : k0 = k
    · subst h0
      have h2 : p ∈ (k0, v) :: rest := by simpa [dinsert] using h
      rcases List.mem_cons.mp h2 with h3 | h3
      · exact Or.inl h3
      · exact Or.inr (List.mem_cons_of_mem _ h3)
    · simp only [dinsert, if_neg h0, List.mem_cons] at h
      rcases h with h | h
      · exact Or.inr (h ▸ List.mem_cons_self _ _)
      · rcases ih h with h2 | h2
        · exact Or.inl h2
        · exact Or.inr (List.mem_cons_of_mem _ h2)

lemma entries_fold_inv {β : Type} (P : CatResult → Prop) (key : β → String)
    (val : β → CatResult) :
    ∀ (l : List β), (∀ x ∈ l, P (val x)) →
      ∀ (acc : CatDict), (∀ p ∈ acc, P p.2) →
      ∀ p ∈ l.foldl (fun a x => dinsert a (key x) (val x)) acc, P p.2 := by
  intro l
  induction l with
  | nil => intro _ acc hacc p hp; exact hacc p hp
  | cons x rest ih =>
    intro hl acc hacc p hp
    simp only [List.foldl_cons] at hp
    refine ih (fun y hy => hl y (List.mem_cons_of_mem x hy)) _ ?_ p hp
    intro q hq
    rcases mem_dinsert acc (key x) (val x) q hq with h | h
    · rw [h]; exact hl x (List.mem_cons_self x rest)
    · exact hacc q h

lemma dlookup_mem (d : CatDict) (k : String) (r : CatResult)
    (h : dlookup d k = some r) : (k, r) ∈ d := by
  induction d with
  | nil => simp [dlookup] at h
  | cons q rest ih =>
    obtain ⟨k0, v0⟩ := q
    by_cases h0 : k0 = k
    · subst h0
      have h2 : v0 = r := by simpa [dlookup] using h
      subst h2
      exact List.mem_cons_self _ _
    · simp only [dlookup, if_neg h0] at h
      exact List.mem_cons_of_mem _ (ih h)

lemma dlookup_isSome_mem_fst (d : CatDict) (k : String)
    (h : (dlookup d k).isSome) : k ∈ d.map Prod.fst := by
  cases hh : dlookup d k with
  | none => rw [hh] at h; simp at h
  | some r => exact List.mem_map.mpr ⟨(k, r), dlookup_mem d k r hh, rfl⟩

/-- The dict component of `_ai_categorize_singles` as a plain fold. -/
lemma ai_categorize_singles_fst (env : CatEnv) (descs : List String) :
    ∀ (acc : CatDict × Nat),
      (descs.foldl
        (fun acc d =>
          let r := ai_categorize_single env d
          (dinsert acc.1 d r.1, acc.2 + r.2)) acc).1 =
      descs.foldl (fun a d => dinsert a d (ai_categorize_single env d).1)
        acc.1 := by
  induction descs with
  | nil => intro acc; rfl
  | cons d rest ih => intro acc; exact ih _

lemma singles_lookup_isSome (env : CatEnv) (descs : List String)
    (d : String) (hd : d ∈ descs) :
    (dlookup (ai_categorize_singles env descs).1 d).isSome := by
  unfold ai_categorize_singles
  rw [ai_categorize_singles_fst env descs ([], 0)]
  exact dlookup_foldl_gen_isSome (fun x => x)
    (fun x => (ai_categorize_single env x).1) descs [] d
    (Or.inl (by simpa using hd))

lemma chunk_lookup_isSome (env : CatEnv) (c : List String) (d : String)
    (hd : d ∈ c) : (dlookup (ai_categorize_chunk env c).1 d).isSome := by
  cases ho : env.chunkOracle c with
  | list items =>
    by_cases hlen : items.length ≠ c.length
    · simp only [ai_categorize_chunk, ho, if_pos hlen]
      exact singles_lookup_isSome env c d hd
    · simp only [ai_categorize_chunk, ho, if_neg hlen]
      push_neg at hlen
      refine dlookup_foldl_gen_isSome Prod.fst (fun p => coerceItem p.2)
        (c.zip items) [] d (Or.inl ?_)
      rw [List.map_fst_zip c items (le_of_eq hlen.symm)]
      exact hd
  | nonList =>
    simp only [ai_categorize_chunk, ho]
    exact singles_lookup_isSome env c d hd
  | exn e =>
    simp only [ai_categorize_chunk, ho]
    exact singles_lookup_isSome env c d hd

lemma chunksOfGo_cover :
    ∀ (fuel : Nat) (l : List String), l.length ≤ fuel →
      ∀ d ∈ l, ∃ c ∈ chunksOfGo fuel l, d ∈ c := by
  intro fuel
  induction fuel with
  | zero =>
    intro l hl d hd
    have : l = [] := List.eq_nil_of_length_eq_zero (by omega)
    subst this
    simp at hd
  | succ n ih =>
    intro l hl d hd
    cases l with
    | nil => simp at hd
    | cons x rest =>
      have hsplit : d ∈ (x :: rest).take CHUNK_SIZE ∨
          d ∈ (x :: rest).drop CHUNK_SIZE := by
        rcases List.mem_append.mp
          ((List.take_append_drop CHUNK_SIZE (x :: rest)) ▸ hd) with h | h
        · exact Or.inl h
        · exact Or.inr h
      rcases hsplit with h | h
      · exact ⟨(x :: rest).take CHUNK_SIZE, by simp [chunksOfGo], h⟩
      · have hlen : ((x :: rest).drop CHUNK_SIZE).length ≤ n := by
          have h20 : CHUNK_SIZE = 20 := rfl
          simp only [List.length_drop, List.length_cons, h20]
          simp only [List.length_cons] at hl
          omega
        obtain ⟨c, hc, hdc⟩ := ih ((x :: rest).drop CHUNK_SIZE) hlen d h
        exact ⟨c, by simp [chunksOfGo, List.mem_cons]; exact Or.inr hc, hdc⟩

lemma dupdate_lookup_isSome (a e : CatDict) (k : String)
    (h : (dlookup e k).isSome ∨ (dlookup a k).isSome) :
    (dlookup (dupdate a e) k).isSome := by
  unfold dupdate
  refine dlookup_foldl_gen_isSome Prod.fst Prod.snd e a k ?_
  rcases h with h | h
  · exact Or.inl (dlookup_isSome_mem_fst e k h)
  · exact Or.inr h

lemma batch_fold_lookup_isSome (env : CatEnv) :
    ∀ (cs : List (List String)) (acc : CatDict × Nat) (d : String),
      ((∃ c ∈ cs, d ∈ c) ∨ (dlookup acc.1 d).isSome) →
      (dlookup (cs.foldl
        (fun acc c =>
          let r := ai_categorize_chunk env c
          (dupdate acc.1 r.1, acc.2 + r.2)) acc).1 d).isSome := by
  intro cs
  induction cs with
  | nil =>
    intro acc d h
    rcases h with h | h
    · obtain ⟨c, hc, _⟩ := h; simp at hc
    · exact h
  | cons c rest ih =>
    intro acc d h
    simp only [List.foldl_cons]
    apply ih
    rcases h with h | h
    · obtain ⟨c2, hc2, hd2⟩ := h
      rcases List.mem_cons.mp hc2 with h2 | h2
      · subst h2
        exact Or.inr (dupdate_lookup_isSome _ _ d
          (Or.inl (chunk_lookup_isSome env c2 d hd2)))
      · exact Or.inl ⟨c2, h2, hd2⟩
    · exact Or.inr (dupdate_lookup_isSome _ _ d (Or.inr h))

lemma batch_lookup_isSome (env : CatEnv) (descs : List String) (d : String)
    (hd : d ∈ descs) :
    (dlookup (ai_categorize_batch env descs).1 d).isSome := by
  unfold ai_categorize_batch
  by_cases hkey : apiKeyConfigured env.apiKey = false
  · simp only [hkey, if_pos]
    have := dlookup_foldl_gen_const (fun x => x) unavailableResult descs [] d
      (Or.inl (by simpa using hd))
    rw [this]
    rfl
  · simp only [hkey, if_neg, not_false_iff]
    refine batch_fold_lookup_isSome env (chunksOf descs) ([], 0) d (Or.inl ?_)
    exact chunksOfGo_cover descs.length descs le_rfl d hd

lemma batch_unconfigured_calls (env : CatEnv) (descs : List String)
    (h : apiKeyConfigured env.apiKey = false) :
    (ai_categorize_batch env descs).2 = 0 := by
  unfold ai_categorize_batch
  rw [if_pos h]

lemma batch_unconfigured_lookup (env : CatEnv) (descs : List String)
    (d : String) (h : apiKeyConfigured env.apiKey = false) (hd : d ∈ descs) :
    dlookup (ai_categorize_batch env descs).1 d = some unavailableResult := by
  unfold ai_categorize_batch
  rw [if_pos h]
  exact dlookup_foldl_gen_const (fun x => x) unavailableResult descs [] d
    (Or.inl (by simpa using hd))

lemma categorize_batch_eq_nonempty (env : CatEnv) (t : MerchantTable)
    (txns : List Txn) (h : (memoryPass t txns 0).2.isEmpty = false) :
    categorize_batch env t txns =
      (applyResults (memoryPass t txns 0).1 (memoryPass t txns 0).2
        (ai_categorize_batch env
          (dedupKeepFirst [] ((memoryPass t txns 0).2.map (fun p => p.2)))).1,
       (ai_categorize_batch env
          (dedupKeepFirst [] ((memoryPass t txns 0).2.map (fun p => p.2)))).2) := by
  simp only [categorize_batch, h]
  simp

/-! ## Claim C4 -/

/-- C4 (amended): with an unconfigured model credential the batch path
resolves every memory-miss immediately to `bucket = none`,
`confidence = 0.0`, `source = ai_unavailable` with zero model calls;
the single-item path, however, still attempts exactly one model call and
reports its outcome (`ai` or `ai_error`), not `ai_unavailable`. -/
theorem C4_unconfigured_key (env : CatEnv)
    (hkey : apiKeyConfigured env.apiKey = false) :
    (∀ descs : List String, (ai_categorize_batch env descs).2 = 0 ∧
      ∀ d ∈ descs,
        dlookup (ai_categorize_batch env descs).1 d = some unavailableResult) ∧
    (∀ (t : MerchantTable) (txns : List Txn) (i : Nat) (tx : Txn),
      txns[i]? = some tx → memLookup t tx.description = none →
      (categorize_batch env t txns).2 = 0 ∧
      ∃ tx2, (categorize_batch env t txns).1[i]? = some tx2 ∧
        tx2.bucket = none ∧ tx2.confidence = 0 ∧
        tx2.categorization_source = "ai_unavailable") ∧
    (∀ (t : MerchantTable) (d : String), memLookup t d = none →
      categorize_transaction env t d = ai_categorize_single env d ∧
      (categorize_transaction env t d).2 = 1 ∧
      ((categorize_transaction env t d).1.source = "ai" ∨
        (categorize_transaction env t d).1.source = "ai_error")) := by
  refine ⟨fun descs => ⟨batch_unconfigured_calls env descs hkey,
    fun d hd => batch_unconfigured_lookup env descs d hkey hd⟩, ?_, ?_⟩
  · intro t txns i tx hget hmiss
    have hneed : (i, tx.description) ∈ (memoryPass t txns 0).2 := by
      simpa using memoryPass_needs_mem_miss t txns 0 i tx hget hmiss
    have hne : (memoryPass t txns 0).2.isEmpty = false := by
      rcases he : (memoryPass t txns 0).2 with _ | ⟨p, rest⟩
      · rw [he] at hneed; simp at hneed
      · rfl
    rw [categorize_batch_eq_nonempty env t txns hne]
    have hdesc : tx.description ∈
        dedupKeepFirst [] ((memoryPass t txns 0).2.map (fun p => p.2)) := by
      refine mem_dedupKeepFirst _ [] tx.description ?_ (by simp)
      exact List.mem_map.mpr ⟨(i, tx.description), hneed, rfl⟩
    have hdict : dlookup (ai_categorize_batch env
        (dedupKeepFirst [] ((memoryPass t txns 0).2.map (fun p => p.2)))).1
        tx.description = some unavailableResult :=
      batch_unconfigured_lookup env _ tx.description hkey hdesc
    refine ⟨batch_unconfigured_calls env _ hkey, aiApplyTxn tx unavailableResult, ?_, rfl, rfl, rfl⟩
    have hts : (memoryPass t txns 0).1[i]? = some tx :=
      memoryPass_get_miss t txns 0 i tx hget hmiss
    have := applyResults_get_once (memoryPass t txns 0).2
      (memoryPass t txns 0).1
      (ai_categorize_batch env
        (dedupKeepFirst [] ((memoryPass t txns 0).2.map (fun p => p.2)))).1
      i tx.description tx hneed (memoryPass_needs_fst_nodup t txns 0) hts
    rw [hdict] at this
    simpa using this
  · intro t d hmiss
    have he : categorize_transaction env t d = ai_categorize_single env d := by
      unfold categorize_transaction
      rw [hmiss]
    refine ⟨he, ?_, ?_⟩
    · rw [he]; exact ai_categorize_single_calls env d
    · rw [he]; exact ai_categorize_single_source env d

/-- Witness for C4 at a concrete unconfigured environment. -/
theorem C4_unconfigured_key_witness :
    dlookup (ai_categorize_batch envFailing ["COFFEE SHOP", "METRO CARD"]).1
      "METRO CARD" = some unavailableResult :=
  ((C4_unconfigured_key envFailing (by decide)).1
    ["COFFEE SHOP", "METRO CARD"]).2 "METRO CARD" (by decide)

/-- C4 counterexample: with the credential unconfigured, a memory-miss on
the single-item path still performs one model call and reports
`ai_error`, not `ai_unavailable` — `categorize_transaction` has no
credential check before building the client and calling the model. -/
theorem C4_counterexample :
    apiKeyConfigured envFailing.apiKey = false ∧
    (categorize_transaction envFailing [] "STARBUCKS").2 = 1 ∧
    (categorize_transaction envFailing [] "STARBUCKS").1.source = "ai_error" ∧
    (categorize_transaction envFailing [] "STARBUCKS").1.source ≠
      "ai_unavailable" := by
  refine ⟨by decide, rfl, rfl, by decide⟩

/-! ## Claim C5 -/

/-- C5: when the model reply for a chunk is not a JSON array of exactly
the chunk's input length, the resolver falls back to one-call-per-item
categorization for that chunk, every description of the chunk still maps
to a result (never a missing entry), and — whatever each chunk's reply —
every description sent to the batch resolver still maps to a result:
chunk failure is never fatal. -/
theorem C5_chunk_mismatch_fallback (env : CatEnv) (descs : List String)
    (hmis : ∀ items, env.chunkOracle descs = ChunkResp.list items →
      items.length ≠ descs.length) :
    (ai_categorize_chunk env descs).1 = (ai_categorize_singles env descs).1 ∧
    (ai_categorize_chunk env descs).2 =
      1 + (ai_categorize_singles env descs).2 ∧
    (∀ d ∈ descs, ∃ r, dlookup (ai_categorize_chunk env descs).1 d = some r) ∧
    (∀ d ∈ descs,
      ∃ r, dlookup (ai_categorize_batch env descs).1 d = some r) := by
  have hfall : (ai_categorize_chunk env descs).1 =
        (ai_categorize_singles env descs).1 ∧
      (ai_categorize_chunk env descs).2 =
        1 + (ai_categorize_singles env descs).2 := by
    cases ho : env.chunkOracle descs with
    | list items =>
      have := hmis items ho
      simp only [ai_categorize_chunk, ho, if_pos this]
      exact ⟨trivial, trivial⟩
    | nonList =>
      simp only [ai_categorize_chunk, ho]
      exact ⟨trivial, trivial⟩
    | exn e =>
      simp only [ai_categorize_chunk, ho]
      exact ⟨trivial, trivial⟩
  refine ⟨hfall.1, hfall.2, ?_, ?_⟩
  · intro d hd
    exact Option.isSome_iff_exists.mp (chunk_lookup_isSome env descs d hd)
  · intro d hd
    exact Option.isSome_iff_exists.mp (batch_lookup_isSome env descs d hd)

/-- A concrete environment whose chunk call parses to a non-array. -/
def envMismatch : CatEnv :=
  ⟨"sk-test", fun _ => ChunkResp.nonList, fun _ => SingleResp.exn "boom"⟩

/-- Witness for C5 at a concrete mismatching chunk response. -/
theorem C5_chunk_mismatch_fallback_witness :
    ∃ r, dlookup (ai_categorize_chunk envMismatch ["UBER TRIP", "NETFLIX"]).1
      "NETFLIX" = some r :=
  (C5_chunk_mismatch_fallback envMismatch ["UBER TRIP", "NETFLIX"]
    (fun items h => ChunkResp.noConfusion h)).2.2.1 "NETFLIX" (by decide)

/-! ## Claim C6 -/

/-- A result carries either no bucket or a bucket of the closed set. -/
def bucketOk (r : CatResult) : Prop :=
  r.bucket = none ∨ ∃ b, r.bucket = some b ∧ b ∈ BUCKETS

lemma coerceItem_bucketOk (it : RawItem) : bucketOk (coerceItem it) := by
  cases hb : it.bucket with
  | none => left; simp [coerceItem, hb]
  | some b =>
    by_cases hmem : b ∈ BUCKETS
    · right
      exact ⟨b, by simp [coerceItem, hb, hmem], hmem⟩
    · left
      simp [coerceItem, hb, hmem]

lemma ai_single_bucketOk (env : CatEnv) (d : String) :
    bucketOk (ai_categorize_single env d).1 := by
  unfold ai_categorize_single
  cases ho : env.singleOracle d with
  | item it raw =>
    cases hb : it.bucket with
    | none => left; simp [hb]
    | some b =>
      by_cases hmem : b ∈ BUCKETS
      · right
        exact ⟨b, by simp [hb, hmem], hmem⟩
      · left
        simp [hb, hmem]
  | exn e => left; rfl

lemma singles_entries_ok (env : CatEnv) (descs : List String) :
    ∀ p ∈ (ai_categorize_singles env descs).1, bucketOk p.2 := by
  unfold ai_categorize_singles
  rw [ai_categorize_singles_fst env descs ([], 0)]
  exact entries_fold_inv bucketOk (fun x => x)
    (fun x => (ai_categorize_single env x).1) descs
    (fun x _ => ai_single_bucketOk env x) [] (by simp)

lemma chunk_entries_ok (env : CatEnv) (c : List String) :
    ∀ p ∈ (ai_categorize_chunk env c).1, bucketOk p.2 := by
  cases ho : env.chunkOracle c with
  | list items =>
    by_cases hlen : items.length ≠ c.length
    · simp only [ai_categorize_chunk, ho, if_pos hlen]
      exact singles_entries_ok env c
    · simp only [ai_categorize_chunk, ho, if_neg hlen]
      exact entries_fold_inv bucketOk Prod.fst (fun p => coerceItem p.2)
        (c.zip items) (fun x _ => coerceItem_bucketOk x.2) [] (by simp)
  | nonList =>
    simp only [ai_categorize_chunk, ho]
    exact singles_entries_ok env c
  | exn e =>
    simp only [ai_categorize_chunk, ho]
    exact singles_entries_ok env c

lemma dupdate_entries_ok (a e : CatDict) (ha : ∀ p ∈ a, bucketOk p.2)
    (he : ∀ p ∈ e, bucketOk p.2) : ∀ p ∈ dupdate a e, bucketOk p.2 := by
  unfold dupdate
  exact entries_fold_inv bucketOk Prod.fst Prod.snd e he a ha

lemma batch_fold_entries_ok (env : CatEnv) :
    ∀ (cs : List (List String)) (acc : CatDict × Nat),
      (∀ p ∈ acc.1, bucketOk p.2) →
      ∀ p ∈ (cs.foldl
        (fun acc c =>
          let r := ai_categorize_chunk env c
          (dupdate acc.1 r.1, acc.2 + r.2)) acc).1, bucketOk p.2 := by
  intro cs
  induction cs with
  | nil => intro acc hacc p hp; exact hacc p hp
  | cons c rest ih =>
    intro acc hacc p hp
    simp only [List.foldl_cons] at hp
    exact ih _ (dupdate_entries_ok _ _ hacc (chunk_entries_ok env c)) p hp

lemma batch_entries_ok (env : CatEnv) (descs : List String) :
    ∀ p ∈ (ai_categorize_batch env descs).1, bucketOk p.2 := by
  unfold ai_categorize_batch
  by_cases hkey : apiKeyConfigured env.apiKey = false
  · rw [if_pos hkey]
    exact entries_fold_inv bucketOk (fun x => x) (fun _ => unavailableResult)
      descs (fun x _ => Or.inl rfl) [] (by simp)
  · rw [if_neg hkey]
    exact batch_fold_entries_ok env (chunksOf descs) ([], 0) (by simp)

/-- C6: an item of a valid model response (single or chunk) whose bucket
is outside the closed set is coerced to `bucket = none`,
`confidence = 0.0` with a diagnostic reasoning, and no result reachable
from the single, chunk or batch resolvers ever carries a bucket outside
the closed set. -/
theorem C6_invalid_bucket_coerced :
    (∀ (env : CatEnv) (d : String) (it : RawItem) (raw : String),
      env.singleOracle d = SingleResp.item it raw →
      (∀ b, it.bucket = some b → b ∉ BUCKETS) →
      (ai_categorize_single env d).1 =
        ⟨none, 0, "ai", "AI suggested unknown bucket. Original: " ++ raw⟩) ∧
    (∀ it : RawItem, (∀ b, it.bucket = some b → b ∉ BUCKETS) →
      coerceItem it =
        ⟨none, 0, "ai", "AI suggested unknown bucket. Original: " ++ it.dump⟩) ∧
    (∀ (env : CatEnv) (d : String), bucketOk (ai_categorize_single env d).1) ∧
    (∀ (env : CatEnv) (c : List String) (d : String) (r : CatResult),
      dlookup (ai_categorize_chunk env c).1 d = some r → bucketOk r) ∧
    (∀ (env : CatEnv) (descs : List String) (d : String) (r : CatResult),
      dlookup (ai_categorize_batch env descs).1 d = some r → bucketOk r) := by
  have hcond : ∀ it : RawItem, (∀ b, it.bucket = some b → b ∉ BUCKETS) →
      (match it.bucket with
        | some b => decide (b ∈ BUCKETS) | none => false) = false := by
    intro it hinv
    cases hb : it.bucket with
    | none => rfl
    | some b => simpa using hinv b hb
  refine ⟨?_, ?_, fun env d => ai_single_bucketOk env d, ?_, ?_⟩
  · intro env d it raw ho hinv
    unfold ai_categorize_single
    rw [ho]
    simp only [hcond it hinv, Bool.false_eq_true, if_false]
  · intro it hinv
    unfold coerceItem
    simp only [hcond it hinv, Bool.false_eq_true, if_false]
  · intro env c d r h
    exact (chunk_entries_ok env c) (d, r) (dlookup_mem _ d r h)
  · intro env descs d r h
    exact (batch_entries_ok env descs) (d, r) (dlookup_mem _ d r h)

/-- A concrete environment whose single-item call suggests an unknown
bucket. -/
def envUnknownBucket : CatEnv :=
  ⟨"sk-test", fun _ => ChunkResp.nonList,
    fun _ => SingleResp.item ⟨some "Food", 9 / 10, "looks edible", "obj"⟩
      "RAWTEXT"⟩

/-- Witness for C6 at a concrete out-of-set model suggestion. -/
theorem C6_invalid_bucket_coerced_witness :
    (ai_categorize_single envUnknownBucket "PIZZA PLACE").1 =
      ⟨none, 0, "ai", "AI suggested unknown bucket. Original: RAWTEXT"⟩ :=
  C6_invalid_bucket_coerced.1 envUnknownBucket "PIZZA PLACE"
    ⟨some "Food", 9 / 10, "looks edible", "obj"⟩ "RAWTEXT" rfl
    (by intro b hb; injection hb with h2; subst h2; decide)

/-! ## Kernel-reducible rational arithmetic

Core `Rat.add`/`Rat.mul`/`Rat.div` do not reduce inside the kernel, so
the embedding computes with the following wrappers, provably equal to
the standard operations. -/

def qAdd (a b : ℚ) : ℚ :=
  mkRat (a.num * b.den + b.num * a.den) (a.den * b.den)

def qMul (a b : ℚ) : ℚ := mkRat (a.num * b.num) (a.den * b.den)

def qDiv (a b : ℚ) : ℚ :=
  if 0 ≤ b.num then mkRat (a.num * b.den) (a.den * b.num.toNat)
  else mkRat (-(a.num * b.den)) (a.den * (-b.num).toNat)

def qAbs (a : ℚ) : ℚ := if 0 ≤ a.num then a else -a

def qTenPow (n : Nat) : ℚ := mkRat ((10 ^ n : Nat) : Int) 1

lemma qAdd_eq (a b : ℚ) : qAdd a b = a + b := by
  unfold qAdd
  rw [Rat.mkRat_eq_div]
  conv_rhs => rw [← Rat.num_div_den a, ← Rat.num_div_den b]
  have ha : ((a.den : ℚ)) ≠ 0 := Nat.cast_ne_zero.mpr a.den_nz
  have hb : ((b.den : ℚ)) ≠ 0 := Nat.cast_ne_zero.mpr b.den_nz
  field_simp

lemma qMul_eq (a b : ℚ) : qMul a b = a * b := by
  unfold qMul
  rw [Rat.mkRat_eq_div]
  conv_rhs => rw [← Rat.num_div_den a, ← Rat.num_div_den b]
  have ha : ((a.den : ℚ)) ≠ 0 := Nat.cast_ne_zero.mpr a.den_nz
  have hb : ((b.den : ℚ)) ≠ 0 := Nat.cast_ne_zero.mpr b.den_nz
  field_simp

lemma qDiv_eq (a b : ℚ) : qDiv a b = a / b := by
  unfold qDiv
  rcases lt_trichotomy b.num 0 with hb | hb | hb
  · rw [if_neg (by omega), Rat.mkRat_eq_div]
    conv_rhs => rw [← Rat.num_div_den a, ← Rat.num_div_den b]
    have ha : ((a.den : ℚ)) ≠ 0 := Nat.cast_ne_zero.mpr a.den_nz
    have hbd : ((b.den : ℚ)) ≠ 0 := Nat.cast_ne_zero.mpr b.den_nz
    have hbn : ((b.num : ℚ)) ≠ 0 := by
      exact_mod_cast Int.ne_of_lt hb
    have htn : (((-b.num).toNat : ℚ)) = -(b.num : ℚ) := by
      have := Int.toNat_of_nonneg (by omega : (0 : Int) ≤ -b.num)
      exact_mod_cast congrArg (fun z : Int => (z : ℚ)) this
    push_cast
    rw [htn]
    field_simp
  · have hb0 : b = 0 := by
      have := Rat.zero_iff_num_zero (q := b)
      exact this.mpr hb
    rw [if_pos (by omega), hb0]
    simp [Rat.mkRat_eq_div]
  · rw [if_pos (by omega), Rat.mkRat_eq_div]
    conv_rhs => rw [← Rat.num_div_den a, ← Rat.num_div_den b]
    have ha : ((a.den : ℚ)) ≠ 0 := Nat.cast_ne_zero.mpr a.den_nz
    have hbd : ((b.den : ℚ)) ≠ 0 := Nat.cast_ne_zero.mpr b.den_nz
    have hbn : ((b.num : ℚ)) ≠ 0 := by
      exact_mod_cast Int.ne_of_gt hb
    have htn : ((b.num.toNat : ℚ)) = (b.num : ℚ) := by
      have := Int.toNat_of_nonneg (by omega : (0 : Int) ≤ b.num)
      exact_mod_cast congrArg (fun z : Int => (z : ℚ)) this
    push_cast
    rw [htn]
    field_simp

lemma qAbs_eq (a : ℚ) : qAbs a = |a| := by
  unfold qAbs
  by_cases h : 0 ≤ a.num
  · rw [if_pos h, abs_of_nonneg]
    exact Rat.num_nonneg.mp h
  · rw [if_neg h, abs_of_neg]
    have : a.num < 0 := by omega
    exact Rat.num_neg.mp this

lemma qTenPow_eq (n : Nat) : qTenPow n = (10 : ℚ) ^ n := by
  unfold qTenPow
  rw [Rat.mkRat_eq_div]
  push_cast
  simp

/-! ## CSV normalizer (`backend/lib/normalizer.py`)

The Python `csv` module (an external dependency of `normalizer.py`) is
modelled as a record parser for the excel dialect: comma delimiter,
double-quote quoting with doubled-quote escapes, records ended by a line
feed, a carriage return, or carriage return + line feed.  The reader is
fallible, as the real one is: a carriage return followed by anything
other than carriage returns and then a line feed or the end of input
raises `new-line character seen in unquoted field`, and growing a field
beyond 131072 characters raises `field larger than field limit (131072)`
(messages abridged from `csv.Error`).  These errors escape
`normalize_csv`, whose per-row `try/except` does not cover the reader
itself. -/

/-- Parser state of the csv record scanner. -/
inductive CsvState where
  | fieldStart | unquoted | quoted | afterQuote
deriving DecidableEq

/-- `csv.field_size_limit()`. -/
def CSV_FIELD_LIMIT : Nat := 131072

/-- Append one character to the current (reversed) field, enforcing the
field size limit as the reader does on every added character. -/
def csvAddChar (c : Char) (cur : List Char) : Except String (List Char) :=
  if CSV_FIELD_LIMIT ≤ cur.length then
    Except.error "field larger than field limit (131072)"
  else Except.ok (c :: cur)

/-- The csv record scanner; `fuel` bounds the recursion (one unit per
consumed character) so the function evaluates by reduction.  A line feed
ends the record; a carriage return ends the record and then, like the
reader after a carriage return, tolerates only further carriage returns
before a line feed or the end of input — anything else is the reader's
`new-line character seen in unquoted field` error. -/
def csvScanGo : Nat → List Char → CsvState → List Char → List String →
    Bool → Except String (List (List String))
  | 0, _, _, _, _, _ => Except.ok []
  | _ + 1, [], _, cur, fields, started =>
    if started then Except.ok [fields ++ [String.mk cur.reverse]]
    else Except.ok []
  | fuel + 1, c :: rest, st, cur, fields, started =>
    match st with
    | .fieldStart =>
      if c = '"' then csvScanGo fuel rest .quoted cur fields true
      else if c = ',' then
        csvScanGo fuel rest .fieldStart []
          (fields ++ [String.mk cur.reverse]) true
      else if c = '\n' then
        match csvScanGo fuel rest .fieldStart [] [] false with
        | Except.error e => Except.error e
        | Except.ok recs => Except.ok
            ((if started then fields ++ [String.mk cur.reverse] else []) ::
              recs)
      else if c = '\r' then
        match rest.dropWhile (fun x => x == '\r') with
        | '\n' :: rest2 =>
          match csvScanGo fuel rest2 .fieldStart [] [] false with
          | Except.error e => Except.error e
          | Except.ok recs => Except.ok
              ((if started then fields ++ [String.mk cur.reverse] else []) ::
                recs)
        | [] => Except.ok
            [if started then fields ++ [String.mk cur.reverse] else []]
        | _ => Except.error "new-line character seen in unquoted field"
      else
        match csvAddChar c cur with
        | Except.error e => Except.error e
        | Except.ok cur2 => csvScanGo fuel rest .unquoted cur2 fields true
    | .unquoted =>
      if c = ',' then
        csvScanGo fuel rest .fieldStart []
          (fields ++ [String.mk cur.reverse]) true
      else if c = '\n' then
        match csvScanGo fuel rest .fieldStart [] [] false with
        | Except.error e => Except.error e
        | Except.ok recs =>
          Except.ok ((fields ++ [String.mk cur.reverse]) :: recs)
      else if c = '\r' then
        match rest.dropWhile (fun x => x == '\r') with
        | '\n' :: rest2 =>
          match csvScanGo fuel rest2 .fieldStart [] [] false with
          | Except.error e => Except.error e
          | Except.ok recs =>
            Except.ok ((fields ++ [String.mk cur.reverse]) :: recs)
        | [] => Except.ok [fields ++ [String.mk cur.reverse]]
        | _ => Except.error "new-line character seen in unquoted field"
      else
        match csvAddChar c cur with
        | Except.error e => Except.error e
        | Except.ok cur2 => csvScanGo fuel rest .unquoted cur2 fields started
    | .quoted =>
      if c = '"' then
        match rest with
        | '"' :: rest2 =>
          match csvAddChar '"' cur with
          | Except.error e => Except.error e
          | Except.ok cur2 => csvScanGo fuel rest2 .quoted cur2 fields started
        | _ => csvScanGo fuel rest .afterQuote cur fields started
      else
        match csvAddChar c cur with
        | Except.error e => Except.error e
        | Except.ok cur2 => csvScanGo fuel rest .quoted cur2 fields started
    | .afterQuote =>
      if c = ',' then
        csvScanGo fuel rest .fieldStart []
          (fields ++ [String.mk cur.reverse]) true
      else if c = '\n' then
        match csvScanGo fuel rest .fieldStart [] [] false with
        | Except.error e => Except.error e
        | Except.ok recs =>
          Except.ok ((fields ++ [String.mk cur.reverse]) :: recs)
      else if c = '\r' then
        match rest.dropWhile (fun x => x == '\r') with
        | '\n' :: rest2 =>
          match csvScanGo fuel rest2 .fieldStart [] [] false with
          | Except.error e => Except.error e
          | Except.ok recs =>
            Except.ok ((fields ++ [String.mk cur.reverse]) :: recs)
        | [] => Except.ok [fields ++ [String.mk cur.reverse]]
        | _ => Except.error "new-line character seen in unquoted field"
      else
        match csvAddChar c cur with
        | Except.error e => Except.error e
        | Except.ok cur2 => csvScanGo fuel rest .unquoted cur2 fields started

/-- All csv records of a raw text, or the reader error that the
iteration would raise. -/
def csvRecords (raw : String) : Except String (List (List String)) :=
  csvScanGo (raw.data.length + 1) raw.data .fieldStart [] [] false

/-- The data rows yielded by `DictReader` from a record list: every
record after the header, blank records skipped. -/
def dataRows (recs : List (List String)) : List (List String) :=
  (recs.drop 1).filter (fun r => !r.isEmpty)

/-- One `DictReader` row: the header-keyed cells (`None`-valued when the
row is shorter than the header) and the extra cells beyond the header
(stored by `DictReader` under its `None` rest key). -/
structure Row where
  cells : List (String × Option String)
  extras : List String
deriving DecidableEq, Repr

/-- Python dict assignment for row cells (last assignment wins). -/
def rinsert : List (String × Option String) → String → Option String →
    List (String × Option String)
  | [], k, v => [(k, v)]
  | (k0, v0) :: rest, k, v =>
    if k0 = k then (k0, v) :: rest else (k0, v0) :: rinsert rest k v

/-- Python dict lookup for row cells. -/
def rlookup : List (String × Option String) → String → Option (Option String)
  | [], _ => none
  | (k0, v0) :: rest, k => if k0 = k then some v0 else rlookup rest k

/-- `dict(zip(fieldnames, row))` followed by the `restval = None`
fill-in of missing columns. -/
def buildCells (fns row : List String) : List (String × Option String) :=
  (((fns.zip row).map (fun p => (p.1, some p.2))) ++
      ((fns.drop row.length).map (fun h => (h, (none : Option String))))).foldl
    (fun acc p => rinsert acc p.1 p.2) []

/-- Build the `DictReader` row for one csv record. -/
def mkRow (fns row : List String) : Row :=
  ⟨buildCells fns row, row.drop fns.length⟩

/-- `(row.get(col) or "")` for an actual header name. -/
def cellValue (r : Row) (h : String) : String :=
  match rlookup r.cells h with
  | some (some v) => v
  | _ => ""

/-- `(row.get(key) or "").strip()`-style access where `key` may be the
absent column marker `None`: `row.get(None)` yields the extras list when
the row had extra cells, and calling `.strip()` on that list raises — the
error that `normalize_csv` silences by skipping the row. -/
def rowGet (r : Row) (k : Option String) : Except Unit String :=
  match k with
  | some h => Except.ok (cellValue r h)
  | none => if r.extras.isEmpty then Except.ok "" else Except.error ()

/-- Case-insensitive substring search (the `re.search` uses here have no
metacharacters beyond alternation once `.?` is expanded separately). -/
def hasInfix : List Char → List Char → Bool
  | needle, [] => needle.isEmpty
  | needle, c :: rest => needle.isPrefixOf (c :: rest) || hasInfix needle rest

/-- Does `a`, then at most one character (not a newline), then `b`,
occur at the head of `rest`?  Models a regex `a.?b`. -/
def optSepAt (a b rest : List Char) : Bool :=
  a.isPrefixOf rest &&
    (let r := rest.drop a.length
     b.isPrefixOf r ||
       (match r with
        | c :: r2 => c ≠ '\n' && b.isPrefixOf r2
        | [] => false))

/-- Does the regex `a.?b` match anywhere in the haystack? -/
def hasOptSep (a b : List Char) : List Char → Bool
  | [] => optSepAt a b []
  | c :: rest => optSepAt a b (c :: rest) || hasOptSep a b rest

/-- `_ACCOUNT_PATTERNS`: `account|acct|card.?number|card.?no|last.?four`,
case-insensitive. -/
def accountPat (s : String) : Bool :=
  let l := (pyLower s).data
  hasInfix "account".data l || hasInfix "acct".data l ||
    hasOptSep "card".data "number".data l ||
    hasOptSep "card".data "no".data l ||
    hasOptSep "last".data "four".data l

/-- `_DATE_HINTS`: `date|posted|trans.?date|settlement` (the third
alternative only matches strings that already contain `date`). -/
def dateHint (s : String) : Bool :=
  let l := (pyLower s).data
  hasInfix "date".data l || hasInfix "posted".data l ||
    hasInfix "settlement".data l

/-- `_DESC_HINTS`: `desc|narr|memo|merchant|payee|detail|name`. -/
def descHint (s : String) : Bool :=
  let l := (pyLower s).data
  hasInfix "desc".data l || hasInfix "narr".data l ||
    hasInfix "memo".data l || hasInfix "merchant".data l ||
    hasInfix "payee".data l || hasInfix "detail".data l ||
    hasInfix "name".data l

/-- `_AMOUNT_HINTS`: `amount|sum|value|total`. -/
def amountHint (s : String) : Bool :=
  let l := (pyLower s).data
  hasInfix "amount".data l || hasInfix "sum".data l ||
    hasInfix "value".data l || hasInfix "total".data l

/-- `_DEBIT_HINTS`: `debit|withdrawal|charge`. -/
def debitHint (s : String) : Bool :=
  let l := (pyLower s).data
  hasInfix "debit".data l || hasInfix "withdrawal".data l ||
    hasInfix "charge".data l

/-- `_CREDIT_HINTS`: `credit|deposit|payment`. -/
def creditHint (s : String) : Bool :=
  let l := (pyLower s).data
  hasInfix "credit".data l || hasInfix "deposit".data l ||
    hasInfix "payment".data l

/-- The column-role map built by `_detect_columns`. -/
structure ColMap where
  date : Option String := none
  description : Option String := none
  amount : Option String := none
  debit : Option String := none
  credit : Option String := none
deriving DecidableEq, Repr

/-- One step of `_detect_columns`: skip account-number columns, then
fill the first still-empty role whose hint matches, in the fixed
`date, description, amount, debit, credit` order. -/
def detectStep (cm : ColMap) (col : String) : ColMap :=
  let clean := pyStrip col
  if accountPat clean then cm
  else if cm.date.isNone && dateHint clean then { cm with date := some col }
  else if cm.description.isNone && descHint clean then
    { cm with description := some col }
  else if cm.amount.isNone && amountHint clean then
    { cm with amount := some col }
  else if cm.debit.isNone && debitHint clean then { cm with debit := some col }
  else if cm.credit.isNone && creditHint clean then
    { cm with credit := some col }
  else cm

/-- `_detect_columns`. -/
def detect_columns (fieldnames : List String) : ColMap :=
  fieldnames.foldl detectStep {}

/-! ## Date and amount parsing (`normalizer.py`) -/

def allDigits (l : List Char) : Bool := l.all Char.isDigit

def digitsToNat (l : List Char) : Nat :=
  l.foldl (fun n c => n * 10 + (c.toNat - 48)) 0

def isLeap (y : Nat) : Bool :=
  (y % 4 == 0 && y % 100 != 0) || y % 400 == 0

def daysInMonth (y m : Nat) : Nat :=
  if m == 2 then (if isLeap y then 29 else 28)
  else if m == 4 || m == 6 || m == 9 || m == 11 then 30
  else 31

/-- A calendar-validity check equivalent to `datetime` construction. -/
def checkDate (y m d : Nat) : Bool :=
  1 ≤ m && m ≤ 12 && 1 ≤ d && d ≤ daysInMonth y m

/-- `strptime` `%m`/`%d` field: one or two digits (range checked by
`checkDate`). -/
def partMD (l : List Char) : Option Nat :=
  if allDigits l && decide (1 ≤ l.length) && decide (l.length ≤ 2) then
    some (digitsToNat l)
  else none

/-- `strptime` `%Y` field: exactly four digits. -/
def partY4 (l : List Char) : Option Nat :=
  if allDigits l && l.length == 4 then some (digitsToNat l) else none

/-- `strptime` `%y` field: exactly two digits, pivoting at 69. -/
def partY2 (l : List Char) : Option Nat :=
  if allDigits l && l.length == 2 then
    let v := digitsToNat l
    some (if v ≤ 68 then 2000 + v else 1900 + v)
  else none

def splitCh (sep : Char) : List Char → List (List Char)
  | [] => [[]]
  | c :: rest =>
    match splitCh sep rest with
    | [] => [[]]
    | h :: t => if c = sep then [] :: h :: t else (c :: h) :: t

/-- `%m/%d/%Y`. -/
def fmt_mdY (raw : List Char) : Option (Nat × Nat × Nat) :=
  match splitCh '/' raw with
  | [ms, ds, ys] => do
    let m ← partMD ms
    let d ← partMD ds
    let y ← partY4 ys
    if checkDate y m d then some (y, m, d) else none
  | _ => none

/-- `%m/%d/%y`. -/
def fmt_mdy (raw : List Char) : Option (Nat × Nat × Nat) :=
  match splitCh '/' raw with
  | [ms, ds, ys] => do
    let m ← partMD ms
    let d ← partMD ds
    let y ← partY2 ys
    if checkDate y m d then some (y, m, d) else none
  | _ => none

/-- `%Y-%m-%d`. -/
def fmt_Ymd_dash (raw : List Char) : Option (Nat × Nat × Nat) :=
  match splitCh '-' raw with
  | [ys, ms, ds] => do
    let y ← partY4 ys
    let m ← partMD ms
    let d ← partMD ds
    if checkDate y m d then some (y, m, d) else none
  | _ => none

/-- `%m-%d-%Y`. -/
def fmt_mdY_dash (raw : List Char) : Option (Nat × Nat × Nat) :=
  match splitCh '-' raw with
  | [ms, ds, ys] => do
    let m ← partMD ms
    let d ← partMD ds
    let y ← partY4 ys
    if checkDate y m d then some (y, m, d) else none
  | _ => none

/-- `%d/%m/%Y`. -/
def fmt_dmY (raw : List Char) : Option (Nat × Nat × Nat) :=
  match splitCh '/' raw with
  | [ds, ms, ys] => do
    let d ← partMD ds
    let m ← partMD ms
    let y ← partY4 ys
    if checkDate y m d then some (y, m, d) else none
  | _ => none

/-- `%Y/%m/%d`. -/
def fmt_Ymd_slash (raw : List Char) : Option (Nat × Nat × Nat) :=
  match splitCh '/' raw with
  | [ys, ms, ds] => do
    let y ← partY4 ys
    let m ← partMD ms
    let d ← partMD ds
    if checkDate y m d then some (y, m, d) else none
  | _ => none

def pad2 (n : Nat) : String := if n < 10 then "0" ++ toString n else toString n

def pad4 (n : Nat) : String :=
  if n < 10 then "000" ++ toString n
  else if n < 100 then "00" ++ toString n
  else if n < 1000 then "0" ++ toString n
  else toString n

/-- `_parse_date`: try the fixed format list in order, first success
wins, output formatted `%Y-%m-%d`. -/
def parse_date (raw : String) : Option String :=
  let c := raw.data
  let r := match fmt_mdY c with
    | some v => some v
    | none => match fmt_mdy c with
      | some v => some v
      | none => match fmt_Ymd_dash c with
        | some v => some v
        | none => match fmt_mdY_dash c with
          | some v => some v
          | none => match fmt_dmY c with
            | some v => some v
            | none => fmt_Ymd_slash c
  match r with
  | some (y, m, d) => some (pad4 y ++ "-" ++ pad2 m ++ "-" ++ pad2 d)
  | none => none

/-- Exponent tail of a Python float literal. -/
def pyFloatExp (sgn mant : ℚ) (l : List Char) : Option ℚ :=
  let p : Bool × List Char :=
    match l with
    | '+' :: r => (true, r)
    | '-' :: r => (false, r)
    | r => (true, r)
  let ds := p.2.takeWhile Char.isDigit
  let rest := p.2.dropWhile Char.isDigit
  if ds.isEmpty || !rest.isEmpty then none
  else if p.1 then some (qMul (qMul sgn mant) (qTenPow (digitsToNat ds)))
  else some (qDiv (qMul sgn mant) (qTenPow (digitsToNat ds)))

/-- Python `float()` on a decimal string (exact rational value). -/
def pyFloat (l0 : List Char) : Option ℚ :=
  let l1 := ((l0.dropWhile pyWs).reverse.dropWhile pyWs).reverse
  let p : ℚ × List Char :=
    match l1 with
    | '+' :: r => (1, r)
    | '-' :: r => (-1, r)
    | r => (1, r)
  let ip := p.2.takeWhile Char.isDigit
  let l3 := p.2.dropWhile Char.isDigit
  match l3 with
  | [] => if ip.isEmpty then none else some (qMul p.1 (digitsToNat ip : ℚ))
  | '.' :: r =>
    let fp := r.takeWhile Char.isDigit
    let l4 := r.dropWhile Char.isDigit
    if ip.isEmpty && fp.isEmpty then none
    else
      let mant : ℚ :=
        qAdd (digitsToNat ip : ℚ)
          (qDiv (digitsToNat fp : ℚ) (qTenPow fp.length))
      match l4 with
      | [] => some (qMul p.1 mant)
      | 'e' :: rexp => pyFloatExp p.1 mant rexp
      | 'E' :: rexp => pyFloatExp p.1 mant rexp
      | _ => none
  | 'e' :: rexp =>
    if ip.isEmpty then none else pyFloatExp p.1 (digitsToNat ip) rexp
  | 'E' :: rexp =>
    if ip.isEmpty then none else pyFloatExp p.1 (digitsToNat ip) rexp
  | _ => none

/-- `_to_float`: strip currency symbols, commas and non-breaking spaces,
turn accounting parentheses into a minus sign, then parse. -/
def to_float (raw : String) : Option ℚ :=
  if raw = "" then none
  else
    let cleaned := raw.data.filter
      (fun c => !(c == '$' || c == ' ' || c == ',' || c == '\xa0'))
    let cleaned2 :=
      if cleaned.head? == some '(' && cleaned.getLast? == some ')' then
        '-' :: (cleaned.drop 1).dropLast
      else cleaned
    pyFloat cleaned2

/-! ## Description sanitisation (`_strip_account_info`) -/

def isWordChar (c : Char) : Bool := c.isAlpha || c.isDigit || c = '_'

/-- `re.sub(r"\b\d{4,}\b", "", desc)`: drop every maximal run of four or
more digits whose neighbours in the original string are not word
characters.  Fuel-driven so the function evaluates by reduction. -/
def stripRunsGo : Nat → Option Char → List Char → List Char
  | 0, _, l => l
  | _ + 1, _, [] => []
  | fuel + 1, prev, c :: rest =>
    if c.isDigit then
      let run := c :: rest.takeWhile Char.isDigit
      let rest2 := rest.dropWhile Char.isDigit
      let boundBefore := match prev with
        | none => true
        | some q => !isWordChar q
      let boundAfter := match rest2.head? with
        | none => true
        | some q => !isWordChar q
      let tail := stripRunsGo fuel (some (run.getLast (List.cons_ne_nil _ _))) rest2
      if decide (4 ≤ run.length) && boundBefore && boundAfter then tail
      else run ++ tail
    else c :: stripRunsGo fuel (some c) rest

/-- `re.sub(r"\s{2,}", " ", ...)`: collapse runs of two or more
whitespace characters into one space. -/
def collapseWsGo : Nat → List Char → List Char
  | 0, l => l
  | _ + 1, [] => []
  | fuel + 1, c :: rest =>
    if pyWs c then
      let run := c :: rest.takeWhile pyWs
      let rest2 := rest.dropWhile pyWs
      (if decide (2 ≤ run.length) then [' '] else run) ++ collapseWsGo fuel rest2
    else c :: collapseWsGo fuel rest

/-- `_strip_account_info`. -/
def strip_account_info (desc : String) : String :=
  let noDigits := stripRunsGo (desc.data.length + 1) none desc.data
  pyStrip (String.mk (collapseWsGo (noDigits.length + 1) noDigits))

/-! ## Row normalisation and `normalize_csv` -/

/-- A normalised transaction as produced by `normalizer.py`. -/
structure NormTxn where
  date : String
  description : String
  amount : ℚ
  original_description : String
  source : String
  raw_line : Nat
deriving DecidableEq, Repr

/-- `_parse_amount`: single amount column first, then debit/credit split
with sign fixed by column identity. -/
def parse_amount (row : Row) (cm : ColMap) : Option ℚ :=
  match cm.amount with
  | some h => to_float (pyStrip (cellValue row h))
  | none =>
    let debitRaw := match cm.debit with
      | some h => pyStrip (cellValue row h)
      | none => ""
    let creditRaw := match cm.credit with
      | some h => pyStrip (cellValue row h)
      | none => ""
    if debitRaw ≠ "" then
      match to_float debitRaw with
      | some v => some (-(qAbs v))
      | none => none
    else if creditRaw ≠ "" then
      match to_float creditRaw with
      | some v => some (qAbs v)
      | none => none
    else none

/-- `_normalise_row`: `Except.error` models an exception inside the row
(caught by `normalize_csv`), `Except.ok none` a row dropped by an early
`return None`. -/
def normalise_row (row : Row) (cm : ColMap) (source : String)
    (line_num : Nat) : Except Unit (Option NormTxn) := do
  let rawDateVal ← rowGet row cm.date
  match parse_date (pyStrip rawDateVal) with
  | none => pure none
  | some parsedDate => do
    let rawDescVal ← rowGet row cm.description
    let rawDesc := pyStrip rawDescVal
    if rawDesc = "" then pure none
    else
      match parse_amount row cm with
      | none => pure none
      | some amount =>
        pure (some ⟨parsedDate, strip_account_info rawDesc, amount, rawDesc,
          source, line_num⟩)

/-- `normalize_csv`: a reader error escapes unchanged — the header
access and the row iteration sit outside the per-row `try/except`.
Otherwise no header record yields `[]`, and each data row is normalised,
a row that raises or returns nothing being skipped. -/
def normalize_csv (raw_text : String) (source : String) :
    Except String (List NormTxn) :=
  match csvRecords raw_text with
  | Except.error e => Except.error e
  | Except.ok recs =>
    match recs.head? with
    | none => Except.ok []
    | some fns =>
      let cm := detect_columns fns
      Except.ok ((dataRows recs).enum.filterMap (fun p =>
        match normalise_row (mkRow fns p.2) cm source (p.1 + 2) with
        | Except.error _ => none
        | Except.ok o => o))

deriving instance DecidableEq for Except

/-! ## Claim C7 -/

/-- The CSV text of the spec's normalization example. -/
def csvC7 : String :=
  "Date,Description,Amount\n01/15/2026,\"STARBUCKS #4521 NEW YORK NY\",-4.85"

/-- C7 counterexample: on the spec's own example row the digit run is
removed but the `#` that preceded it survives (`\b\d{4,}\b` matches only
the digits), so the description is `STARBUCKS # NEW YORK NY`, not the
claimed `STARBUCKS NEW YORK NY`. -/
theorem C7_counterexample :
    Except.map (fun l => l.map NormTxn.description)
        (normalize_csv csvC7 "bank") =
      Except.ok ["STARBUCKS # NEW YORK NY"] ∧
    Except.map (fun l => l.map NormTxn.description)
        (normalize_csv csvC7 "bank") ≠
      Except.ok ["STARBUCKS NEW YORK NY"] := by
  decide

/-- C7 (amended): the example row normalizes to exactly one transaction
with date `2026-01-15`, description `STARBUCKS # NEW YORK NY` (digit run
`4521` stripped, the `#` kept), amount `-4.85` and source `bank`. -/
theorem C7_amended_normalization :
    normalize_csv csvC7 "bank" =
      Except.ok [⟨"2026-01-15", "STARBUCKS # NEW YORK NY", mkRat (-97) 20,
        "STARBUCKS #4521 NEW YORK NY", "bank", 2⟩] ∧
    mkRat (-97) 20 = -(97 / 20 : ℚ) := by
  refine ⟨by decide, ?_⟩
  rw [Rat.mkRat_eq_div]
  norm_num

/-! ## Claim C10 -/

/-- A data row carrying a bare carriage return followed by data in an
unquoted field — the csv reader raises on it. -/
def csvBadCR : String := "Date,Description,Amount\nA\rB,x,1"

/-- C10 counterexample: `normalize_csv` does raise — on this input the
csv reader throws `csv.Error` (a carriage return followed by data in an
unquoted field), and the error escapes `normalize_csv` because the
reader iteration and the fieldnames access are outside the per-row
`try/except`. -/
theorem C10_counterexample :
    normalize_csv csvBadCR "bank" =
      Except.error "new-line character seen in unquoted field" := by
  decide

/-- C10 (amended): a csv reader error escapes `normalize_csv` unchanged;
whenever the reader succeeds, `normalize_csv` returns a list — an input
with no header record yields `[]`, at most one transaction is produced
per data row, and every produced transaction is the successful
normalisation of one data row, an error inside an individual row only
skipping that row. -/
theorem C10_normalize_csv_errors (raw src : String) :
    (∀ e, csvRecords raw = Except.error e →
      normalize_csv raw src = Except.error e) ∧
    (∀ recs, csvRecords raw = Except.ok recs →
      (recs.head? = none → normalize_csv raw src = Except.ok []) ∧
      (∃ out, normalize_csv raw src = Except.ok out ∧
        out.length ≤ (dataRows recs).length ∧
        (∀ t ∈ out, ∃ fns i row, recs.head? = some fns ∧
          (dataRows recs)[i]? = some row ∧
          normalise_row (mkRow fns row) (detect_columns fns) src (i + 2) =
            Except.ok (some t)))) := by
  constructor
  · intro e he
    unfold normalize_csv
    rw [he]
  · intro recs hr
    constructor
    · intro hh
      simp only [normalize_csv, hr, hh]
    · cases hh : recs.head? with
      | none =>
        refine ⟨[], ?_, by simp, by simp⟩
        simp only [normalize_csv, hr, hh]
      | some fns =>
        refine ⟨(dataRows recs).enum.filterMap (fun p =>
          match normalise_row (mkRow fns p.2) (detect_columns fns) src
              (p.1 + 2) with
          | Except.error _ => none
          | Except.ok o => o), ?_, ?_, ?_⟩
        · simp only [normalize_csv, hr, hh]
        · calc ((dataRows recs).enum.filterMap _).length
              ≤ (dataRows recs).enum.length := List.length_filterMap_le _ _
            _ = (dataRows recs).length := List.enum_length
        · intro t ht
          obtain ⟨p, hp, hmatch⟩ := List.mem_filterMap.mp ht
          obtain ⟨i, row⟩ := p
          have hrow : (dataRows recs)[i]? = some row :=
            List.mem_enum_iff_getElem?.mp hp
          refine ⟨fns, i, row, rfl, hrow, ?_⟩
          cases hnr : normalise_row (mkRow fns row) (detect_columns fns) src
              (i + 2) with
          | error e => rw [hnr] at hmatch; simp at hmatch
          | ok o =>
            rw [hnr] at hmatch
            cases o with
            | none => simp at hmatch
            | some t2 =>
              simp only [Option.some.injEq] at hmatch
              rw [hmatch]

/-- Witness for C10 at the empty input: the reader succeeds with no
records, there is no header, and the result is the empty list. -/
theorem C10_normalize_csv_errors_witness :
    normalize_csv "" "bank" = Except.ok [] :=
  ((C10_normalize_csv_errors "" "bank").2 [] (by decide)).1 (by decide)

/-! ## Statement parser (`backend/lib/statement_parser.py`) -/

/-- Banker's rounding of a rational to an integer, the exact-decimal
semantics of Python `round`. -/
def roundHalfEven (q : ℚ) : Int :=
  let f := ⌊q⌋
  let frac := qAdd q (-((f : Int) : ℚ))
  if frac < mkRat 1 2 then f
  else if mkRat 1 2 < frac then f + 1
  else if f % 2 == 0 then f else f + 1

/-- `round(x, 2)` (exact-decimal model). -/
def pyRound2 (q : ℚ) : ℚ :=
  qDiv ((roundHalfEven (qMul q (100 : ℚ)) : Int) : ℚ) (100 : ℚ)

def isUpperAZ (c : Char) : Bool := 'A' ≤ c && c ≤ 'Z'

/-- Does `\s+[A-Z]{2}\s+\d{5}(-\d{4})?$` match this whole tail? -/
def locMatch (s : List Char) : Bool :=
  !(s.takeWhile pyWs).isEmpty &&
    (match s.dropWhile pyWs with
     | c1 :: c2 :: r2 =>
       isUpperAZ c1 && isUpperAZ c2 && !(r2.takeWhile pyWs).isEmpty &&
         (let r3 := r2.dropWhile pyWs
          let r4 := r3.dropWhile Char.isDigit
          (r3.takeWhile Char.isDigit).length == 5 &&
            (r4.isEmpty ||
              (match r4 with
               | '-' :: r5 =>
                 (r5.takeWhile Char.isDigit).length == 4 &&
                   (r5.dropWhile Char.isDigit).isEmpty
               | _ => false)))
     | _ => false)

/-- Does `\s+x{1,4}\d{4}$` (case-insensitive) match this whole tail? -/
def xMatch (s : List Char) : Bool :=
  !(s.takeWhile pyWs).isEmpty &&
    (let r1 := s.dropWhile pyWs
     let xs := r1.takeWhile (fun c => c == 'x' || c == 'X')
     let r2 := r1.dropWhile (fun c => c == 'x' || c == 'X')
     decide (1 ≤ xs.length) && decide (xs.length ≤ 4) &&
       (r2.takeWhile Char.isDigit).length == 4 &&
       (r2.dropWhile Char.isDigit).isEmpty)

/-- Index of the leftmost position whose tail satisfies `f`. -/
def findMatchFrom (f : List Char → Bool) : List Char → Option Nat
  | [] => if f [] then some 0 else none
  | c :: rest =>
    if f (c :: rest) then some 0
    else (findMatchFrom f rest).map (fun n => n + 1)

/-- Remove the leftmost `$`-anchored match of `f` (a suffix). -/
def stripSuffixMatch (f : List Char → Bool) (l : List Char) : List Char :=
  match findMatchFrom f l with
  | some p => l.take p
  | none => l

/-- `re.sub(r"\s+", " ", ...)`: every whitespace run becomes one space. -/
def collapseAllWsGo : Nat → List Char → List Char
  | 0, l => l
  | _ + 1, [] => []
  | fuel + 1, c :: rest =>
    if pyWs c then ' ' :: collapseAllWsGo fuel (rest.dropWhile pyWs)
    else c :: collapseAllWsGo fuel rest

/-- `_clean_description`: strip a trailing `STATE ZIP` suffix, then a
trailing masked-card suffix, collapse whitespace, strip. -/
def clean_description (desc : String) : String :=
  let s1 := stripSuffixMatch locMatch desc.data
  let s2 := stripSuffixMatch xMatch s1
  pyStrip (String.mk (collapseAllWsGo (s2.length + 1) s2))

/-- One element of the model's parsed JSON array: the three fields read
by `_parse_response`, `none` when the key is absent. -/
structure PTxn where
  date : Option String := none
  description : Option String := none
  amount : Option ℚ := none
deriving DecidableEq, Repr

/-- `_parse_response` after `json.loads`: items defaulting to
`date = ""`, `description = "Unknown"`, `amount = 0`; an item with a
falsy date or description is dropped; amounts are rounded to two
decimals; zero kept transactions is a hard error. -/
def parse_response (txns : List PTxn) (source : String) :
    Except String (List NormTxn) :=
  let normalized := txns.enum.filterMap (fun p =>
    let date_str := p.2.date.getD ""
    let desc := p.2.description.getD "Unknown"
    let amount := p.2.amount.getD 0
    if date_str = "" || desc = "" then none
    else some ⟨date_str, clean_description desc, pyRound2 amount, desc,
      source, p.1⟩)
  if normalized.isEmpty then
    Except.error "No transactions could be extracted from this statement"
  else Except.ok normalized

lemma mem_of_getElem?_some {α : Type} {l : List α} {i : Nat} {a : α}
    (h : l[i]? = some a) : a ∈ l := by
  obtain ⟨hlt, he⟩ := List.getElem?_eq_some.mp h
  exact he ▸ List.getElem_mem hlt

/-! ## Claim C8 -/

/-- A model transaction with a date and amount but no description key. -/
def c8MissingDesc : PTxn := ⟨some "2026-01-15", none, some (mkRat (-97) 20)⟩

/-- C8 counterexample: a transaction whose description key is absent is
not dropped — `txn.get("description", "Unknown")` substitutes the truthy
default `"Unknown"`, so the item is kept and the response succeeds
instead of failing hard. -/
theorem C8_counterexample :
    parse_response [c8MissingDesc] "bank" =
      Except.ok [⟨"2026-01-15", "Unknown", mkRat (-97) 20, "Unknown",
        "bank", 0⟩] ∧
    parse_response [c8MissingDesc] "bank" ≠
      Except.error "No transactions could be extracted from this statement" := by
  decide

/-- C8 (amended): an item is dropped exactly when its date is absent or
empty, or its description value is present but empty — an item with no
description key is kept with description `Unknown`; every kept amount is
the two-decimal rounding of the item's amount (default 0); and the
operation errors hard exactly when nothing is kept. -/
theorem C8_response_validation (txns : List PTxn) (src : String) :
    (parse_response txns src =
        Except.error "No transactions could be extracted from this statement" ↔
      ∀ t ∈ txns, t.date.getD "" = "" ∨ t.description.getD "Unknown" = "") ∧
    (∀ out, parse_response txns src = Except.ok out →
      (∀ r ∈ out, ∃ t ∈ txns,
        t.date.getD "" ≠ "" ∧ t.description.getD "Unknown" ≠ "" ∧
        r.date = t.date.getD "" ∧
        r.original_description = t.description.getD "Unknown" ∧
        r.description = clean_description (t.description.getD "Unknown") ∧
        r.amount = pyRound2 (t.amount.getD 0)) ∧
      (∀ (i : Nat) (t : PTxn), txns[i]? = some t →
        t.date.getD "" ≠ "" → t.description.getD "Unknown" ≠ "" →
        (⟨t.date.getD "", clean_description (t.description.getD "Unknown"),
          pyRound2 (t.amount.getD 0), t.description.getD "Unknown", src, i⟩ :
          NormTxn) ∈ out)) := by
  set f : Nat × PTxn → Option NormTxn := fun p =>
    let date_str := p.2.date.getD ""
    let desc := p.2.description.getD "Unknown"
    let amount := p.2.amount.getD 0
    if date_str = "" || desc = "" then none
    else some ⟨date_str, clean_description desc, pyRound2 amount, desc,
      src, p.1⟩ with hf
  have hpr : parse_response txns src =
      (if (txns.enum.filterMap f).isEmpty then
        Except.error "No transactions could be extracted from this statement"
      else Except.ok (txns.enum.filterMap f)) := rfl
  constructor
  · constructor
    · intro herr
      intro t ht
      by_contra hcon
      push_neg at hcon
      obtain ⟨i, hi⟩ := List.mem_iff_getElem?.mp ht
      have hmem : (i, t) ∈ txns.enum := List.mem_enum_iff_getElem?.mpr hi
      have hsome : f (i, t) ≠ none := by
        simp only [hf]
        simp only [hcon.1, hcon.2, if_neg, Bool.or_self, or_self]
        simp
      have : txns.enum.filterMap f ≠ [] := by
        intro hnil
        exact hsome (List.filterMap_eq_nil_iff.mp hnil (i, t) hmem)
      rw [hpr] at herr
      by_cases hemp : (txns.enum.filterMap f).isEmpty
      · exact this (List.isEmpty_iff.mp hemp)
      · rw [if_neg hemp] at herr
        exact Except.noConfusion herr
    · intro hall
      rw [hpr, if_pos]
      rw [List.isEmpty_iff, List.filterMap_eq_nil_iff]
      intro p hp
      obtain ⟨i, t⟩ := p
      have hi : txns[i]? = some t := List.mem_enum_iff_getElem?.mp hp
      have ht : t ∈ txns := mem_of_getElem?_some hi
      rcases hall t ht with h | h
      · simp only [hf]
        simp [h]
      · simp only [hf]
        simp [h]
  · intro out hout
    rw [hpr] at hout
    by_cases hemp : (txns.enum.filterMap f).isEmpty
    · rw [if_pos hemp] at hout
      exact Except.noConfusion hout
    · rw [if_neg hemp] at hout
      have hout2 : out = txns.enum.filterMap f :=
        (Except.ok.inj hout).symm
      subst hout2
      constructor
      · intro r hr
        obtain ⟨p, hp, hfp⟩ := List.mem_filterMap.mp hr
        obtain ⟨i, t⟩ := p
        have hti : txns[i]? = some t := List.mem_enum_iff_getElem?.mp hp
        refine ⟨t, mem_of_getElem?_some hti, ?_⟩
        by_cases hdrop : t.date.getD "" = "" ∨ t.description.getD "Unknown" = ""
        · exfalso
          have : f (i, t) = none := by
            simp only [hf]
            rcases hdrop with h | h <;> simp [h]
          rw [this] at hfp
          exact Option.noConfusion hfp
        · push_neg at hdrop
          have : f (i, t) = some ⟨t.date.getD "",
              clean_description (t.description.getD "Unknown"),
              pyRound2 (t.amount.getD 0), t.description.getD "Unknown",
              src, i⟩ := by
            simp only [hf]
            simp [hdrop.1, hdrop.2]
          rw [this] at hfp
          have hr2 := Option.some.inj hfp
          rw [← hr2]
          exact ⟨hdrop.1, hdrop.2, rfl, rfl, rfl, rfl⟩
      · intro i t hti hd1 hd2
        refine List.mem_filterMap.mpr ⟨(i, t),
          List.mem_enum_iff_getElem?.mpr hti, ?_⟩
        simp only [hf]
        simp [hd1, hd2]

/-- Witness for C8 at a batch whose only item has an empty description
value: everything is dropped and the operation fails hard. -/
theorem C8_response_validation_witness :
    parse_response [⟨some "2026-01-15", some "", none⟩] "bank" =
      Except.error "No transactions could be extracted from this statement" :=
  (C8_response_validation [⟨some "2026-01-15", some "", none⟩] "bank").1.mpr
    (by decide)

/-! ## Month handler (`backend/handlers/month.py`) and transaction
deletion (`backend/handlers/transactions.py`) -/

/-- A bucket definition from the buckets table; optional fields model
the `b.get(..., default)` accesses. -/
structure BucketDef where
  bucketId : String
  name : String
  emoji : Option String := none
  monthlyTarget : Option ℚ := none
  displayOrder : Option Nat := none
deriving DecidableEq, Repr

/-- A stored transaction record: the union of the attributes used by the
month handler (`monthKey`, `amount`, `bucket`, `confidence`, `locked`,
`pk`/`sk`) and by the transactions handler (`householdId`,
`transactionId`, `sk`). -/
structure TxnRec where
  pk : String := ""
  sk : String := ""
  householdId : String := ""
  transactionId : String := ""
  monthKey : String := ""
  amount : ℚ := 0
  bucket : Option String := none
  confidence : ℚ := 0
  locked : Bool := false
deriving DecidableEq, Repr

/-- One bucket line of the monthly summary. -/
structure BucketSummary where
  bucketId : String
  name : String
  emoji : String
  spent : ℚ
  target : ℚ
  count : Nat
  status : String
deriving DecidableEq, Repr

/-- A monthly summary, as computed live or persisted at lock time. -/
structure Summary where
  monthKey : String
  locked : Bool
  totalSpent : ℚ
  totalIncome : ℚ
  transactionCount : Nat
  needsReview : Nat
  buckets : List BucketSummary
  lockedBy : Option String := none
  lockedAt : Option String := none
deriving DecidableEq, Repr

/-- The key-value store state seen by these handlers. -/
structure DB where
  transactions : List TxnRec
  summaries : List Summary
  buckets : List BucketDef
deriving DecidableEq, Repr

/-- `query_items(..., Key("monthKey").eq(mk), index_name="byMonth",
limit=2000)`: one unpaginated page of at most 2000 matching items, as
both `_get_summary` and `_lock_month` issue it — transactions beyond the
page are invisible to them. -/
def queryByMonth (db : DB) (mk : String) : List TxnRec :=
  (db.transactions.filter (fun t => t.monthKey == mk)).take 2000

/-- `get_item(summaries, {"monthKey": mk})`. -/
def summaryLookup (db : DB) (mk : String) : Option Summary :=
  db.summaries.find? (fun s => s.monthKey == mk)

/-- `put_item` on the summaries table (overwrite by key). -/
def putSummary (ss : List Summary) (s : Summary) : List Summary :=
  s :: ss.filter (fun x => x.monthKey ≠ s.monthKey)

/-- Python truthiness of `txn.get("bucket")`. -/
def truthyBucket : Option String → Bool
  | none => false
  | some s => s != ""

/-- The per-bucket status ladder of `_get_summary`: no target or spend at
most 80% of target is `stable`, 80–100% `dripping`, over target
`overflowing`. -/
def bucketStatus (target spent : ℚ) : String :=
  if target ≤ 0 then "stable"
  else if spent ≤ qMul target (mkRat 8 10) then "stable"
  else if spent ≤ target then "dripping"
  else "overflowing"

/-- Running totals of the aggregation loop of `_get_summary`. -/
structure Totals where
  spent : ℚ
  income : ℚ
  needsReview : Nat
  bucketTotals : List (String × ℚ × Nat)
deriving DecidableEq, Repr

def btGet : List (String × ℚ × Nat) → String → Option (ℚ × Nat)
  | [], _ => none
  | (k0, v) :: rest, k => if k0 = k then some v else btGet rest k

def btSet : List (String × ℚ × Nat) → String → ℚ × Nat →
    List (String × ℚ × Nat)
  | [], k, v => [(k, v.1, v.2)]
  | (k0, v0) :: rest, k, v =>
    if k0 = k then (k0, v.1, v.2) :: rest else (k0, v0) :: btSet rest k v

/-- One iteration of the aggregation loop. -/
def aggStep (acc : Totals) (txn : TxnRec) : Totals :=
  let amount := txn.amount
  let acc1 :=
    if amount < 0 then { acc with spent := qAdd acc.spent (qAbs amount) }
    else { acc with income := qAdd acc.income amount }
  let acc2 :=
    if !truthyBucket txn.bucket || txn.confidence < mkRat 7 10 then
      { acc1 with needsReview := acc1.needsReview + 1 }
    else acc1
  if truthyBucket txn.bucket then
    let name := txn.bucket.getD ""
    let cur := (btGet acc2.bucketTotals name).getD (0, 0)
    let spent2 := if amount < 0 then qAdd cur.1 (qAbs amount) else cur.1
    { acc2 with bucketTotals := btSet acc2.bucketTotals name (spent2, cur.2 + 1) }
  else acc2

/-- Stable insertion (a new element goes after equal keys), so the fold
below is Python's stable `sorted`. -/
def insertSorted {α : Type} (le : α → α → Bool) (x : α) : List α → List α
  | [] => [x]
  | y :: rest => if le y x then y :: insertSorted le x rest else x :: y :: rest

def sortStable {α : Type} (le : α → α → Bool) (l : List α) : List α :=
  l.foldl (fun acc x => insertSorted le x acc) []

/-- The empty-month summary of `_get_summary`. -/
def emptySummary (mk : String) : Summary := ⟨mk, false, 0, 0, 0, 0, [], none, none⟩

/-- The live (unlocked) summary computation of `_get_summary`. -/
def liveSummary (db : DB) (mk : String) : Summary :=
  let txns := queryByMonth db mk
  if txns.isEmpty then emptySummary mk
  else
    let tot := txns.foldl aggStep ⟨0, 0, 0, []⟩
    let sorted := sortStable
      (fun a b => decide (a.displayOrder.getD 99 ≤ b.displayOrder.getD 99))
      db.buckets
    let bucketSummaries := sorted.map (fun b =>
      let totals := (btGet tot.bucketTotals b.name).getD (0, 0)
      let target := b.monthlyTarget.getD 0
      (⟨b.bucketId, b.name, b.emoji.getD "🪣", pyRound2 totals.1, target,
        totals.2, bucketStatus target totals.1⟩ : BucketSummary))
    ⟨mk, false, pyRound2 tot.spent, pyRound2 tot.income, txns.length,
      tot.needsReview, bucketSummaries, none, none⟩

/-- `_get_summary`: a persisted locked summary is returned verbatim,
otherwise the summary is recomputed live. -/
def get_summary (db : DB) (mk : String) : Summary :=
  match summaryLookup db mk with
  | some s => if s.locked then s else liveSummary db mk
  | none => liveSummary db mk

/-- The response shapes of `_lock_month`. -/
inductive LockResult where
  | notFound (msg : String)
  | badRequest (msg : String)
  | conflict (msg : String)
  | ok (summary : Summary)
deriving DecidableEq, Repr

/-- HTTP status of each response helper (`lib/response.py`). -/
def LockResult.statusCode : LockResult → Nat
  | .notFound _ => 404
  | .badRequest _ => 400
  | .conflict _ => 409
  | .ok _ => 200

/-- The committing tail of `_lock_month`: mark the month's transactions
locked, recompute the summary on the updated store, persist it with the
lock metadata. -/
def lockGo (db : DB) (mk userId lockedAt : String) : LockResult × DB :=
  let db1 : DB := { db with
    transactions := db.transactions.map (fun t =>
      if t.monthKey == mk then { t with locked := true } else t) }
  let s0 := get_summary db1 mk
  let s1 := { s0 with
    locked := true
    lockedBy := some userId
    lockedAt := some lockedAt }
  (.ok s1, { db1 with summaries := putSummary db1.summaries s1 })

/-- `_lock_month`: no transactions is 404; any uncategorized transaction
is a 400 bad request naming the count; an already-locked month is a 409
conflict; otherwise the month is locked. -/
def lock_month (db : DB) (mk userId lockedAt : String) : LockResult × DB :=
  let txns := queryByMonth db mk
  if txns.isEmpty then
    (.notFound ("No transactions found for " ++ mk), db)
  else
    let unreviewed := txns.filter (fun t => !truthyBucket t.bucket)
    if !unreviewed.isEmpty then
      (.badRequest ("Cannot lock — " ++ toString unreviewed.length ++
        " transaction(s) still uncategorized. Review them first!"), db)
    else
      match summaryLookup db mk with
      | some s =>
        if s.locked then (.conflict (mk ++ " is already locked"), db)
        else lockGo db mk userId lockedAt
      | none => lockGo db mk userId lockedAt

/-- The response shapes of the transactions handler `_delete`. -/
inductive DelResult where
  | badRequest (msg : String)
  | notFound (msg : String)
  | ok (deleted : String)
deriving DecidableEq, Repr

/-- `_delete` of `transactions.py` (caller identity already resolved to
its household): query one page of the household's items
(`query_items` default `limit=500`), find the transaction by id, delete
it by key — with no check of any month or transaction lock. -/
def delete_transaction (db : DB) (hid txnId : String) : DelResult × DB :=
  let items := (db.transactions.filter (fun t => t.householdId == hid)).take 500
  match items.find? (fun t => t.transactionId == txnId) with
  | none => (.notFound "Transaction not found", db)
  | some target =>
    (.ok txnId, { db with
      transactions := db.transactions.filter (fun t =>
        !(t.householdId == hid && t.sk == target.sk)) })

/-- A transaction insertion (the upload path's `put_item`). -/
def insert_transaction (db : DB) (t : TxnRec) : DB :=
  { db with transactions := db.transactions ++ [t] }

/-! ## Claim C9 -/

/-- C9: with a positive target, status is `stable` exactly when spend is
at most 80% of target (boundary included), `dripping` exactly when spend
is above 80% and at most 100% of target, `overflowing` exactly when
spend exceeds the target; a non-positive target is always `stable`. -/
theorem C9_status_thresholds (target spent : ℚ) :
    (0 < target →
      ((bucketStatus target spent = "stable" ↔ spent ≤ target * (8 / 10)) ∧
       (bucketStatus target spent = "dripping" ↔
         target * (8 / 10) < spent ∧ spent ≤ target) ∧
       (bucketStatus target spent = "overflowing" ↔ target < spent))) ∧
    (target ≤ 0 → bucketStatus target spent = "stable") := by
  have h810 : qMul target (mkRat 8 10) = target * (8 / 10) := by
    rw [qMul_eq]
    congr 1
    rw [Rat.mkRat_eq_div]
    norm_num
  constructor
  · intro hpos
    unfold bucketStatus
    rw [if_neg (not_le.mpr hpos), h810]
    by_cases h1 : spent ≤ target * (8 / 10)
    · rw [if_pos h1]
      refine ⟨⟨fun _ => h1, fun _ => rfl⟩, ?_, ?_⟩
      · constructor
        · intro h; exact absurd h (by decide)
        · rintro ⟨h2, _⟩; exact absurd h1 (not_le.mpr h2)
      · constructor
        · intro h; exact absurd h (by decide)
        · intro h2
          have : spent ≤ target := le_trans h1 (by nlinarith)
          exact absurd h2 (not_lt.mpr this)
    · rw [if_neg h1]
      by_cases h2 : spent ≤ target
      · rw [if_pos h2]
        refine ⟨?_, ⟨fun _ => ⟨not_le.mp h1, h2⟩, fun _ => rfl⟩, ?_⟩
        · constructor
          · intro h; exact absurd h (by decide)
          · intro h; exact absurd h h1
        · constructor
          · intro h; exact absurd h (by decide)
          · intro h; exact absurd h (not_lt.mpr h2)
      · rw [if_neg h2]
        refine ⟨?_, ?_, ⟨fun _ => not_le.mp h2, fun _ => rfl⟩⟩
        · constructor
          · intro h; exact absurd h (by decide)
          · intro h
            exact absurd (le_trans h (by nlinarith)) h2
        · constructor
          · intro h; exact absurd h (by decide)
          · rintro ⟨_, h⟩; exact absurd h h2
  · intro hle
    unfold bucketStatus
    rw [if_pos hle]

/-- Witness for C9: spend exactly 80% of a 100 target is `stable`. -/
theorem C9_status_thresholds_witness :
    bucketStatus 100 80 = "stable" :=
  (((C9_status_thresholds 100 80).1 (by norm_num)).1).mpr (by norm_num)

/-! ## Claim C3 -/

lemma lockGo_ok (db : DB) (mk u ts : String) :
    ∃ s2 db2, lockGo db mk u ts = (LockResult.ok s2, db2) ∧
      s2.locked = true := by
  refine ⟨_, _, rfl, rfl⟩

/-- C3 (amended): the lock check sees one query page of at most 2000
transactions.  A month locks only when that page is non-empty (404
otherwise); a lock attempt with `n ≥ 1` uncategorized transactions on
the page fails with a 400 bad-request (not a 409 state-conflict) naming
`n`; locking an already-locked month is a 409 conflict and leaves the
store unchanged; and when every transaction on the page is categorized
and the month is not yet locked, locking succeeds — an uncategorized
transaction beyond the 2000-item page does not block it. -/
theorem C3_lock_preconditions (db : DB) (mk u ts : String) :
    (queryByMonth db mk).length ≤ 2000 ∧
    (queryByMonth db mk = [] →
      lock_month db mk u ts =
        (LockResult.notFound ("No transactions found for " ++ mk), db)) ∧
    (queryByMonth db mk ≠ [] →
      (queryByMonth db mk).filter (fun t => !truthyBucket t.bucket) ≠ [] →
      lock_month db mk u ts =
        (LockResult.badRequest ("Cannot lock — " ++
          toString ((queryByMonth db mk).filter
            (fun t => !truthyBucket t.bucket)).length ++
          " transaction(s) still uncategorized. Review them first!"), db) ∧
      (lock_month db mk u ts).1.statusCode = 400) ∧
    (queryByMonth db mk ≠ [] →
      (queryByMonth db mk).filter (fun t => !truthyBucket t.bucket) = [] →
      (summaryLookup db mk).map Summary.locked = some true →
      lock_month db mk u ts =
        (LockResult.conflict (mk ++ " is already locked"), db) ∧
      (lock_month db mk u ts).1.statusCode = 409) ∧
    (queryByMonth db mk ≠ [] →
      (queryByMonth db mk).filter (fun t => !truthyBucket t.bucket) = [] →
      (∀ s, summaryLookup db mk = some s → s.locked = false) →
      ∃ s2 db2, lock_month db mk u ts = (LockResult.ok s2, db2) ∧
        s2.locked = true) := by
  refine ⟨?_, ?_, ?_, ?_, ?_⟩
  · unfold queryByMonth
    exact List.length_take_le _ _
  · intro h
    simp [lock_month, h]
  · intro hne hunrev
    have heq : lock_month db mk u ts =
        (LockResult.badRequest ("Cannot lock — " ++
          toString ((queryByMonth db mk).filter
            (fun t => !truthyBucket t.bucket)).length ++
          " transaction(s) still uncategorized. Review them first!"), db) := by
      simp only [lock_month]
      rw [if_neg (by simpa [List.isEmpty_iff] using hne)]
      rw [if_pos (by simpa [List.isEmpty_iff] using hunrev)]
    exact ⟨heq, by rw [heq]; rfl⟩
  · intro hne hall hlock
    obtain ⟨s, hs, hsl⟩ : ∃ s, summaryLookup db mk = some s ∧ s.locked = true := by
      cases hs : summaryLookup db mk with
      | none =>
        rw [hs] at hlock
        exact Option.noConfusion hlock
      | some s =>
        rw [hs] at hlock
        exact ⟨s, rfl, by simpa using hlock⟩
    have heq : lock_month db mk u ts =
        (LockResult.conflict (mk ++ " is already locked"), db) := by
      simp only [lock_month, hs]
      rw [if_neg (by simpa [List.isEmpty_iff] using hne)]
      rw [if_neg (by simp [hall])]
      rw [if_pos hsl]
    exact ⟨heq, by rw [heq]; rfl⟩
  · intro hne hall hnl
    cases hs : summaryLookup db mk with
    | none =>
      have heq : lock_month db mk u ts = lockGo db mk u ts := by
        simp only [lock_month, hs]
        rw [if_neg (by simpa [List.isEmpty_iff] using hne)]
        rw [if_neg (by simp [hall])]
      rw [heq]
      exact lockGo_ok db mk u ts
    | some s =>
      have heq : lock_month db mk u ts = lockGo db mk u ts := by
        simp only [lock_month, hs]
        rw [if_neg (by simpa [List.isEmpty_iff] using hne)]
        rw [if_neg (by simp [hall])]
        rw [if_neg (by simp [hnl s hs])]
      rw [heq]
      exact lockGo_ok db mk u ts

/-- A month with its only transaction uncategorized. -/
def unrevTxn : TxnRec :=
  { pk := "USER#u1", sk := "TXN#2026-01-15#t1", householdId := "h1",
    transactionId := "t1", monthKey := "2026-01", amount := mkRat (-5) 1 }

def dbC3 : DB := ⟨[unrevTxn], [], []⟩

/-- C3 counterexample: with one uncategorized transaction, the lock
attempt fails with a 400 bad request, not the claimed 409
state-conflict. -/
theorem C3_counterexample :
    (lock_month dbC3 "2026-01" "u1" "ts").1 =
      LockResult.badRequest
        "Cannot lock — 1 transaction(s) still uncategorized. Review them first!" ∧
    (lock_month dbC3 "2026-01" "u1" "ts").1.statusCode = 400 ∧
    (lock_month dbC3 "2026-01" "u1" "ts").1.statusCode ≠ 409 := by
  decide

/-- Witness for C3 at the concrete one-uncategorized-transaction month. -/
theorem C3_lock_preconditions_witness :
    lock_month dbC3 "2026-01" "u1" "ts" =
      (LockResult.badRequest ("Cannot lock — " ++ toString (1 : Nat) ++
        " transaction(s) still uncategorized. Review them first!"), dbC3) := by
  have h := ((C3_lock_preconditions dbC3 "2026-01" "u1" "ts").2.2.1
    (by decide) (by decide)).1
  have hlen : ((queryByMonth dbC3 "2026-01").filter
      (fun t => !truthyBucket t.bucket)).length = 1 := by decide
  rw [hlen] at h
  exact h

/-! ## Claim C2 -/

/-- A categorized, locked transaction of a locked month. -/
def lockedTxn : TxnRec :=
  { pk := "USER#u1", sk := "TXN#2026-01-15#abc", householdId := "h1",
    transactionId := "t1", monthKey := "2026-01", amount := mkRat (-5) 1,
    bucket := some "Groceries", confidence := 1, locked := true }

/-- The persisted locked summary of that month. -/
def lockedSummaryC2 : Summary :=
  { monthKey := "2026-01", locked := true, totalSpent := 5, totalIncome := 0,
    transactionCount := 1, needsReview := 0, buckets := [],
    lockedBy := some "u1", lockedAt := some "2026-02-01T00:00:00Z" }

/-- The store after locking month 2026-01. -/
def dbC2 : DB := ⟨[lockedTxn], [lockedSummaryC2], []⟩

/-- A transaction later inserted (erroneously) into the locked month. -/
def lateTxn : TxnRec :=
  { pk := "USER#u1", sk := "TXN#2026-01-20#zzz", householdId := "h1",
    transactionId := "t2", monthKey := "2026-01", amount := mkRat (-7) 1 }

/-- C2 evaluated at the failing input: the month is locked and its
transaction is marked locked, yet `DELETE /transactions/{id}` succeeds
and removes it — the transactions handler never checks any lock.  The
summary half of the claim does hold: a summary fetch keeps returning the
persisted locked summary verbatim even after a new insertion. -/
theorem C2_delete_ignores_lock :
    (summaryLookup dbC2 "2026-01").map Summary.locked = some true ∧
    lockedTxn.locked = true ∧
    (delete_transaction dbC2 "h1" "t1").1 = DelResult.ok "t1" ∧
    (delete_transaction dbC2 "h1" "t1").2.transactions = [] ∧
    get_summary (insert_transaction dbC2 lateTxn) "2026-01" =
      lockedSummaryC2 := by
  decide
